import Mathlib

/-!
Shallow embedding of the reservation reconciliation pipeline
(src/main.py, src/notion_handler.py, src/notifier.py).

Python dictionaries are modelled as association lists (insertion order
preserved, keys unique by construction in the modelled code paths).
Python values flowing through the pipeline are modelled by `Value`;
Notion property payloads by `PropValue`.  The Notion database is a list
of pages; page ids are assigned sequentially by the model of the Notion
service.  Collaborator failures (store create and update calls, the
Telegram notifier, the initial store lookup) are injected through a
`Faults` record carried by each job; field-extraction failure is the
`none` case of `Job.doc`.
-/

namespace AutoRes

/-- Model of the Python values that flow through the pipeline dictionaries:
strings, integers (Python ints; decimal semantics only), booleans and None. -/
inductive Value where
  | vnone : Value
  | str (s : String) : Value
  | num (n : Int) : Value
  | bool (b : Bool) : Value
deriving DecidableEq

/-- A Python dict as an insertion-ordered association list. -/
abbrev Dict := List (String × Value)

/-- Lookup of a key in a dict (first occurrence; modelled dicts have unique keys). -/
def dictGet (d : Dict) (k : String) : Option Value :=
  (d.find? (fun kv => kv.1 = k)).map (fun kv => kv.2)

/-- Model of Python dict assignment `d[k] = v`: replace the value at `k`
if present, else append the new binding at the end. -/
def dictSet (d : Dict) (k : String) (v : Value) : Dict :=
  if (d.find? (fun kv => kv.1 = k)).isSome then
    d.map (fun kv => if kv.1 = k then (k, v) else kv)
  else
    d ++ [(k, v)]

/-- Digit character for a decimal digit (0 ≤ d ≤ 9 in the modelled uses). -/
def digitChar (d : Nat) : Char := Char.ofNat (48 + d)

/-- Numeric value of a digit character. -/
def charDigit (c : Char) : Nat := c.toNat - 48

/-- Little-endian decimal digits of `n`, with explicit fuel so that the
definition is structurally recursive (fuel `n` is always enough). -/
def natDigitsRev : Nat → Nat → List Nat
  | 0, _ => []
  | fuel + 1, n => if n = 0 then [] else n % 10 :: natDigitsRev fuel (n / 10)

/-- Model of Python `str` on a non-negative integer: its decimal numeral. -/
def pyStrNat (n : Nat) : String :=
  if n = 0 then "0" else String.mk (((natDigitsRev n n).reverse).map digitChar)

/-- Model of Python `str` on an int (negative values get a leading minus sign). -/
def pyStrInt (n : Int) : String :=
  if n < 0 then "-" ++ pyStrNat n.natAbs else pyStrNat n.toNat

/-- Model of Python `int` on the decimal numerals this pipeline writes into
the edition select column (the written names are always `pyStrNat e`). -/
def parseNatDigits (s : String) : Nat :=
  s.data.foldl (fun n c => n * 10 + charDigit c) 0

/-- Model of Python `str` on a pipeline value. -/
def pyStr : Value → String
  | .str s => s
  | .num n => pyStrInt n
  | .bool b => if b then "True" else "False"
  | .vnone => "None"

/-- Model of Python str.lower restricted to the ASCII status names this
pipeline uses (character-wise lowering, list-based so that proofs can
evaluate it). -/
def pyLower (s : String) : String := String.mk (s.data.map Char.toLower)

/-- Model of Python truthiness (`bool(v)` / `if v:`). -/
def pyTruthy : Value → Bool
  | .str s => s ≠ ""
  | .num n => n ≠ 0
  | .bool b => b
  | .vnone => false

/-- Model of Python `int(v)` where it can succeed on pipeline values; `none`
models a raised TypeError/ValueError. Decimal strings only (optionally
signed), which covers every value this pipeline feeds to `int`. -/
def pyIntOfValue : Value → Option Int
  | .num n => some n
  | .bool b => some (if b then 1 else 0)
  | .str s =>
      if s = "" then none
      else if s.data.all (fun c => 48 ≤ c.toNat ∧ c.toNat ≤ 57) then
        some (parseNatDigits s : Nat)
      else if s.data.head? = some '-' ∧ s.data.tail ≠ [] ∧
              s.data.tail.all (fun c => 48 ≤ c.toNat ∧ c.toNat ≤ 57) then
        some (-(parseNatDigits (String.mk s.data.tail) : Nat))
      else none
  | .vnone => none

/-- Model of Python `float(v)` restricted to the integral values the pipeline
actually stores in number columns (no claim here depends on fractional
parts). A non-numeric string would raise in the source; the raising paths
are not exercised by any persisted payload in the modelled flows. -/
def pyFloat : Value → Int
  | .num n => n
  | .bool b => if b then 1 else 0
  | .str s => (pyIntOfValue (.str s)).getD 0
  | .vnone => 0

/-- Notion column kinds used by the `_FIELD_MAP` table of src/notion_handler.py. -/
inductive ColType where
  | title | select | number | email | status | date
deriving DecidableEq

/-- Notion property payloads as built by `_data_to_properties`. -/
inductive PropValue where
  | title (content : String)
  | number (n : Int)
  | email (s : String)
  | select (name : String)
  | status (name : String)
  | date (start : String)
  | checkbox (b : Bool)
deriving DecidableEq

/-- A Notion page property set. -/
abbrev Props := List (String × PropValue)

/-- Lookup of a column in a property set (first occurrence). -/
def getProp (props : Props) (k : String) : Option PropValue :=
  (props.find? (fun kv => kv.1 = k)).map (fun kv => kv.2)

/-- The `_FIELD_MAP` table of src/notion_handler.py: input field key to
(column name, column type). Unknown keys are absent (`none`). -/
def FIELD_MAP : String → Option (String × ColType)
  | "reservation_number" => some ("booking_num", .title)
  | "edition" => some ("edition", .select)
  | "order_limit" => some ("order_limit", .number)
  | "faculty_email" => some ("faculty_email", .email)
  | "sender_email" => some ("email", .email)
  | "faculty_name" => some ("faculty", .select)
  | "date" => some ("date", .date)
  | "number_of_people" => some ("number_of_seats", .number)
  | "status" => some ("status", .status)
  | "total_with_vat" => some ("total_with_vat", .number)
  | "invoice_num" => some ("invoice_num", .number)
  | "reserved_table" => some ("setting", .select)
  | _ => none

/-- The `_SETTING_LABELS` table: reserved_table flag to Hebrew label. -/
def SETTING_LABEL (b : Bool) : String := if b then "הגשה" else "דלפק"

/-- Model of the regular-expression test `\d{2}/\d{2}/\d{4}` (full match). -/
def dateRegexMatch (s : String) : Bool :=
  match s.data with
  | [d1, d2, s1, m1, m2, s2, y1, y2, y3, y4] =>
      d1.isDigit && d2.isDigit && s1 = '/' && m1.isDigit && m2.isDigit &&
      s2 = '/' && y1.isDigit && y2.isDigit && y3.isDigit && y4.isDigit
  | _ => false

/-- Date normalisation of `_data_to_properties`: DD/MM/YYYY is rewritten to
ISO YYYY-MM-DD, anything else passes through. -/
def dateToIso (s : String) : String :=
  if dateRegexMatch s then
    match s.splitOn "/" with
    | [d, m, y] => y ++ "-" ++ m ++ "-" ++ d
    | _ => s
  else s

/-- Conversion of one (input key, value) pair to its Notion property payload,
following the per-column-type branches of `_data_to_properties`. -/
def propOfField (in_key : String) (v : Value) (ty : ColType) : PropValue :=
  let v := if in_key = "reserved_table" then .str (SETTING_LABEL (pyTruthy v)) else v
  match ty with
  | .title => .title (pyStr v)
  | .number => .number (pyFloat v)
  | .email => .email (pyStr v)
  | .select => .select (pyStr v)
  | .status => .status (pyStr v)
  | .date => .date (dateToIso (pyStr v))

/-- The `_data_to_properties` function of src/notion_handler.py: skip None
values and unmapped keys, convert the rest, then append the fixed
`confirmed_booking = False` checkbox default. -/
def data_to_properties (data : Dict) : Props :=
  (data.filterMap (fun kv =>
    if kv.2 = Value.vnone then none
    else match FIELD_MAP kv.1 with
      | none => none
      | some (col, ty) => some (col, propOfField kv.1 kv.2 ty)))
  ++ [("confirmed_booking", PropValue.checkbox false)]

/-- The `TERMINAL_STATUSES` set of src/main.py. -/
def TERMINAL : List String := ["closed", "cancelled", "invoice_sent", "paid"]

/-- The hard-terminal subset checked inside `update_notion_entry`. -/
def HARD_TERMINAL : List String := ["invoice_sent", "paid"]

/-- The four reconciliation decisions of spec section 4.2; the update case
carries the status-field suppression flag. -/
inductive Decision where
  | create
  | skipTerminal
  | skipStale
  | update (suppress_status_field : Bool)
deriving DecidableEq

/-- Truthiness of `status_now in TERMINAL_STATUSES` where `status_now` may be
None (src/main.py line 78). -/
def statusIsTerminal (s : Option String) : Bool :=
  match s with
  | some s => TERMINAL.contains s
  | none => false

/-- Membership of the stored status in the hard-terminal set, as tested by
`update_notion_entry` (an absent status reads back as the empty string,
which is not hard-terminal). -/
def statusIsHardTerminal (s : Option String) : Bool :=
  match s with
  | some s => HARD_TERMINAL.contains s
  | none => false

/-- The create / update / skip decision taken by `process_pdf`
(src/main.py lines 74-117), with the status-suppression flag taken by
`update_notion_entry` (src/notion_handler.py lines 251-253).  `page` is
the engine view of the store lookup: `none` when no record exists, else
the stored edition and the stored status (as returned lower-cased by
`get_existing_page_status`). -/
def codeDecision (page : Option (Nat × Option String)) (edition : Nat) : Decision :=
  match page with
  | none => .create
  | some (stored_ed, status_now) =>
      if edition ≤ stored_ed ∧ statusIsTerminal status_now then .skipTerminal
      else if stored_ed < edition then .update (statusIsHardTerminal status_now)
      else .skipStale

/-- Modelled from the spec, section 4.2: the edition/status policy pseudocode,
written exactly as the spec lists it, for comparison against `codeDecision`. -/
def specPolicy (stored_edition : Option Nat) (stored_status : Option String)
    (incoming_edition : Nat) : Decision :=
  match stored_edition with
  | none => .create
  | some sed =>
      if statusIsTerminal stored_status ∧ incoming_edition ≤ sed then .skipTerminal
      else if incoming_edition ≤ sed then .skipStale
      else if statusIsHardTerminal stored_status then .update true
      else .update false

/-- A Notion page: its id and its property set.  A column absent from
`props` models a property the API reports with a null value. -/
structure Page where
  pid : Nat
  props : Props
deriving DecidableEq

/-- The Notion database: the list of its pages. -/
abbrev Store := List Page

/-- Model of the page id the Notion service assigns to a newly created page. -/
def freshId (st : Store) : Nat := st.length

/-- The query filter used by both lookups: the `booking_num` title equals
`str(reservation_number).strip()` (a decimal numeral, so strip is the
identity). -/
def pageMatches (res : Nat) (p : Page) : Bool :=
  match getProp p.props "booking_num" with
  | some (.title s) => s = pyStrNat res
  | _ => false

/-- Stored edition read back from a page, as `search_notion_by_reservation_number`
does: `int(sel["name"])` when the edition select is set and non-empty, else 0.
The written names are always decimal numerals, which `parseNatDigits` inverts. -/
def editionOfProps (props : Props) : Nat :=
  match getProp props "edition" with
  | some (.select name) => if name = "" then 0 else parseNatDigits name
  | _ => 0

/-- The `search_notion_by_reservation_number` lookup: the first page whose
title matches, with its stored edition; `none` models the (None, None)
return. -/
def searchStore (st : Store) (res : Nat) : Option (Nat × Nat) :=
  match st.find? (pageMatches res) with
  | some p => some (p.pid, editionOfProps p.props)
  | none => none

/-- The `get_existing_page_status` lookup: the lower-cased status name of the
first matching page, or `none` when the page or its status value is absent. -/
def getStatusLower (st : Store) (res : Nat) : Option String :=
  match st.find? (pageMatches res) with
  | some p =>
      match getProp p.props "status" with
      | some (.status name) => some (pyLower name)
      | _ => none
  | none => none

/-- The raw (non-lower-cased) status name `update_notion_entry` reads from the
retrieved page, defaulting to the empty string. -/
def beforeStatusOf (p : Page) : String :=
  match getProp p.props "status" with
  | some (.status name) => name
  | _ => ""

/-- Fault injection for the external collaborators during one job:
the initial store lookup raising, the pages.create call raising, the
pages.update call raising, and the Telegram send raising. -/
structure Faults where
  lookupErr : Bool
  createErr : Bool
  updateErr : Bool
  notifyErr : Bool
deriving DecidableEq

/-- No collaborator failure. -/
def noFaults : Faults := ⟨false, false, false, false⟩

/-- One PDF job: the field-extraction outcome for its document (`none`
models extraction raising), the asserted reservation number and edition
from the e-mail/filename, and the collaborator faults in effect. -/
structure Job where
  doc : Option Dict
  res : Nat
  ed : Nat
  faults : Faults
deriving DecidableEq

/-- Observable side effects of a run, in order of occurrence. -/
inductive Event where
  | log (module ev : String)
  | extractCall
  | createCall (data : Dict)
  | updateCall (pid : Nat) (data : Dict)
  | notify (updated : Bool)
  | appendDesc (content : String)
deriving DecidableEq

/-- Replacement of the page with the given id (Notion pages.update): the
given properties override, all other stored properties are unchanged. -/
def replaceFirstPage : Store → Nat → Props → Store
  | [], _, _ => []
  | p :: rest, pid, newProps =>
      if p.pid = pid then { p with props := newProps ++ p.props } :: rest
      else p :: replaceFirstPage rest pid newProps

/-- The `create_notion_entry` function of src/notion_handler.py.  Returns the
events emitted, the store afterwards, and whether the call returned
normally (`false` models the logged-and-re-raised exception path). -/
def create_notion_entry (f : Faults) (st : Store) (data : Dict) :
    List Event × Store × Bool :=
  let desc := dictGet data "additional_description"
  if f.createErr then
    ([.createCall data, .log "notion_handler" "notion_error"], st, false)
  else
    let page : Page := ⟨freshId st, data_to_properties data⟩
    let st1 := st ++ [page]
    match dictGet data "reservation_number" with
    | none =>
        ([.createCall data, .log "notion_handler" "notion_error"], st1, false)
    | some _ =>
        if f.notifyErr then
          ([.createCall data, .notify false, .log "notion_handler" "notion_error"],
           st1, false)
        else
          let evDesc :=
            match desc with
            | some v => if pyTruthy v then [Event.appendDesc (pyStr v)] else []
            | none => []
          ([.createCall data, .notify false] ++ evDesc ++
            [.log "notion_handler" "notion_created"], st1, true)

/-- The status-suppression step of `update_notion_entry` (src/notion_handler.py
lines 251-253): when the current status is hard-terminal, the status key is
dropped from the payload. -/
def suppressData (before : String) (data : Dict) : Dict :=
  if before = "invoice_sent" ∨ before = "paid" then
    data.filter (fun kv => kv.1 ≠ "status")
  else data

/-- The `update_notion_entry` function of src/notion_handler.py: retrieve the
page, drop the status key when the current status is hard-terminal, build
properties, and patch / notify / log when the property set is non-empty. -/
def update_notion_entry (f : Faults) (st : Store) (pid : Nat) (data : Dict) :
    List Event × Store × Bool :=
  match st.find? (fun p => p.pid = pid) with
  | none =>
      ([.updateCall pid data, .log "notion_handler" "notion_error"], st, false)
  | some page =>
      let data2 := suppressData (beforeStatusOf page) data
      let props := data_to_properties data2
      if props.isEmpty then ([.updateCall pid data], st, true)
      else if f.updateErr then
        ([.updateCall pid data, .log "notion_handler" "notion_error"], st, false)
      else
        let st1 := replaceFirstPage st pid props
        match dictGet data2 "reservation_number" with
        | none =>
            ([.updateCall pid data, .log "notion_handler" "notion_error"], st1, false)
        | some _ =>
            if f.notifyErr then
              ([.updateCall pid data, .notify true,
                .log "notion_handler" "notion_error"], st1, false)
            else
              ([.updateCall pid data, .notify true,
                .log "notion_handler" "notion_updated"], st1, true)

/-- The minimal three-field payload kept for cancellations
(src/main.py lines 100-105). -/
def cancelledMin (res ed : Nat) : Dict :=
  [("reservation_number", .num res), ("edition", .num ed), ("status", .str "cancelled")]

/-- The authoritative overwrite of `process_pdf` (src/main.py lines 96-97):
the e-mail-parsed reservation number and edition replace the extractor's. -/
def authoritative (gpt : Dict) (res ed : Nat) : Dict :=
  dictSet (dictSet gpt "reservation_number" (.num res)) "edition" (.num ed)

/-- Cancellation minimisation (src/main.py lines 100-105): the full payload is
replaced by the minimal dict when the extracted status is "cancelled". -/
def shapePayload (gpt2 : Dict) (sv : Value) (res ed : Nat) : Dict :=
  if sv = .str "cancelled" then cancelledMin res ed else gpt2

/-- The try-block of `process_pdf` (src/main.py lines 84-125): extraction,
authoritative overwrite, cancellation minimisation, create / update /
stale-skip, with every exception caught and logged as pdf_error. -/
def processPdfTry (st : Store) (j : Job) (found : Option (Nat × Nat)) :
    List Event × Store × Bool :=
  match j.doc with
  | none => ([.extractCall, .log "main" "pdf_error"], st, true)
  | some gpt =>
      match dictGet gpt "reservation_number" with
      | none => ([.extractCall, .log "main" "pdf_error"], st, true)
      | some rnv =>
          match pyIntOfValue rnv with
          | none => ([.extractCall, .log "main" "pdf_error"], st, true)
          | some rn =>
              let evMis : List Event :=
                if rn ≠ (j.res : Int) then [.log "main" "res_num_mismatch"] else []
              let gpt2 := authoritative gpt j.res j.ed
              match dictGet gpt2 "status" with
              | none => ([.extractCall] ++ evMis ++ [.log "main" "pdf_error"], st, true)
              | some sv =>
                  let gptF : Dict := shapePayload gpt2 sv j.res j.ed
                  match found with
                  | none =>
                      let r := create_notion_entry j.faults st gptF
                      ([.extractCall] ++ evMis ++ r.1 ++
                        [if r.2.2 then .log "main" "pdf_ok" else .log "main" "pdf_error"],
                       r.2.1, true)
                  | some (pid, sed) =>
                      if sed < j.ed then
                        let r := update_notion_entry j.faults st pid gptF
                        ([.extractCall] ++ evMis ++ r.1 ++
                          [if r.2.2 then .log "main" "pdf_ok" else .log "main" "pdf_error"],
                         r.2.1, true)
                      else
                        ([.extractCall] ++ evMis ++ [.log "main" "skip_old_edition"],
                         st, true)

/-- The `process_pdf` function of src/main.py.  The two store lookups happen
before the try-block, so a lookup failure escapes the function: the final
Bool is `false` exactly when an exception escaped. -/
def process_pdf (st : Store) (j : Job) : List Event × Store × Bool :=
  let ev0 : List Event := [.log "main" "start_pdf"]
  if j.faults.lookupErr then (ev0, st, false)
  else
    let found := searchStore st j.res
    let status_now := getStatusLower st j.res
    match found with
    | some (_pid, sed) =>
        if j.ed ≤ sed ∧ statusIsTerminal status_now then
          (ev0 ++ [.log "main" "skip_terminal"], st, true)
        else
          let r := processPdfTry st j found
          (ev0 ++ r.1, r.2.1, r.2.2)
    | none =>
        let r := processPdfTry st j found
        (ev0 ++ r.1, r.2.1, r.2.2)

/-- The per-run loop of `main` (src/main.py lines 210-222): jobs are processed
in order inside one try-block, so an exception escaping `process_pdf` is
logged as pipeline_error, re-raised, and aborts the rest of the batch.
The final Bool is `true` when the whole batch ran. -/
def runJobs (st : Store) : List Job → List Event × Store × Bool
  | [] => ([], st, true)
  | j :: rest =>
      let r := process_pdf st j
      if r.2.2 then
        let r2 := runJobs r.2.1 rest
        (r.1 ++ r2.1, r2.2.1, r2.2.2)
      else
        (r.1 ++ [.log "main" "pipeline_error"], r.2.1, false)

/-- Engine view of the stored edition for a reservation number. -/
def storedEditionOpt (st : Store) (res : Nat) : Option Nat :=
  (searchStore st res).map (fun pr => pr.2)

/-- Well-formedness of the modelled store: page ids are exactly the positions
the model of the Notion service assigned.  Holds for every store reachable
from the empty one and gives uniqueness of page ids. -/
def WFStore (st : Store) : Prop := st.map Page.pid = List.range st.length

/-- A document whose extracted dict lets `process_pdf` reach the
create/update branch: the reservation number key is present and
int-convertible, and the status key is present. -/
def goodDoc (g : Dict) : Bool :=
  ((dictGet g "reservation_number").bind pyIntOfValue).isSome
    && (dictGet g "status").isSome

instance : DecidablePred WFStore := fun st =>
  inferInstanceAs (Decidable (st.map Page.pid = List.range st.length))

end AutoRes

namespace AutoRes

theorem natDigitsRev_lt (fuel n : Nat) : ∀ d ∈ natDigitsRev fuel n, d < 10 := by
  induction fuel generalizing n with
  | zero => simp [natDigitsRev]
  | succ fuel ih =>
      intro d hd
      by_cases h0 : n = 0
      · simp [natDigitsRev, h0] at hd
      · simp only [natDigitsRev, if_neg h0, List.mem_cons] at hd
        rcases hd with h | h
        · subst h; exact Nat.mod_lt _ (by omega)
        · exact ih _ _ h

theorem foldr_natDigitsRev (fuel : Nat) :
    ∀ n, n ≤ fuel → (natDigitsRev fuel n).foldr (fun d acc => acc * 10 + d) 0 = n := by
  induction fuel with
  | zero => intro n h; interval_cases n; simp [natDigitsRev]
  | succ fuel ih =>
      intro n h
      by_cases h0 : n = 0
      · simp [natDigitsRev, h0]
      · have hdiv : n / 10 ≤ fuel := by
          have := Nat.div_lt_self (Nat.pos_of_ne_zero h0) (by omega : 1 < 10)
          omega
        simp only [natDigitsRev, if_neg h0, List.foldr_cons, ih _ hdiv]
        omega

theorem charDigit_digitChar (d : Nat) (h : d < 10) : charDigit (digitChar d) = d := by
  interval_cases d <;> rfl

theorem foldr_charDigit_digitChar (l : List Nat) (h : ∀ d ∈ l, d < 10) :
    l.foldr (fun d acc => acc * 10 + charDigit (digitChar d)) 0 =
    l.foldr (fun d acc => acc * 10 + d) 0 := by
  induction l with
  | nil => rfl
  | cons d t ih =>
      simp only [List.foldr_cons, ih (fun x hx => h x (List.mem_cons_of_mem _ hx)),
        charDigit_digitChar d (h d (List.mem_cons_self d t))]

theorem parse_pyStrNat (n : Nat) : parseNatDigits (pyStrNat n) = n := by
  by_cases h0 : n = 0
  · subst h0; rfl
  · unfold pyStrNat parseNatDigits
    rw [if_neg h0]
    show (((natDigitsRev n n).reverse.map digitChar).foldl (fun a c => a * 10 + charDigit c) 0) = n
    rw [List.foldl_map, List.foldl_reverse]
    calc (natDigitsRev n n).foldr (fun d acc => acc * 10 + charDigit (digitChar d)) 0
        = (natDigitsRev n n).foldr (fun d acc => acc * 10 + d) 0 :=
          foldr_charDigit_digitChar _ (natDigitsRev_lt n n)
      _ = n := foldr_natDigitsRev n n le_rfl

theorem pyStrNat_inj {a b : Nat} (h : pyStrNat a = pyStrNat b) : a = b := by
  have := congrArg parseNatDigits h
  rwa [parse_pyStrNat, parse_pyStrNat] at this

theorem pyStrNat_ne_empty (n : Nat) : pyStrNat n ≠ "" := by
  by_cases h0 : n = 0
  · subst h0; decide
  · unfold pyStrNat
    rw [if_neg h0]
    intro h
    have hdata : ((natDigitsRev n n).reverse.map digitChar) = [] := by
      have := congrArg String.data h
      simpa using this
    simp only [List.map_eq_nil_iff, List.reverse_eq_nil_iff] at hdata
    cases hn : natDigitsRev n n with
    | nil =>
        cases n with
        | zero => exact h0 rfl
        | succ m => simp [natDigitsRev] at hn
    | cons a t => rw [hn] at hdata; exact List.cons_ne_nil a t hdata

theorem pyStrInt_natCast (n : Nat) : pyStrInt (n : Int) = pyStrNat n := by
  unfold pyStrInt
  rw [if_neg (by exact Int.not_lt.mpr (Int.natCast_nonneg n))]
  simp

end AutoRes

namespace AutoRes

theorem FIELD_MAP_col_ne_confirmed (k : String) (p : String × ColType)
    (h : FIELD_MAP k = some p) : p.1 ≠ "confirmed_booking" := by
  unfold FIELD_MAP at h
  split at h <;> first
  | exact Option.noConfusion h
  | (injection h with h; subst h; decide)

theorem FIELD_MAP_col_booking (k : String) (p : String × ColType)
    (h : FIELD_MAP k = some p) (hc : p.1 = "booking_num") : k = "reservation_number" := by
  unfold FIELD_MAP at h
  split at h <;> first
  | exact Option.noConfusion h
  | (injection h with h; subst h; simp_all)

theorem FIELD_MAP_col_edition (k : String) (p : String × ColType)
    (h : FIELD_MAP k = some p) (hc : p.1 = "edition") : k = "edition" := by
  unfold FIELD_MAP at h
  split at h <;> first
  | exact Option.noConfusion h
  | (injection h with h; subst h; simp_all)

theorem FIELD_MAP_col_status (k : String) (p : String × ColType)
    (h : FIELD_MAP k = some p) (hc : p.1 = "status") : k = "status" := by
  unfold FIELD_MAP at h
  split at h <;> first
  | exact Option.noConfusion h
  | (injection h with h; subst h; simp_all)

end AutoRes

namespace AutoRes

theorem find?_setMap_self (d : Dict) (k : String) (v : Value) :
    (d.map (fun kv => if kv.1 = k then (k, v) else kv)).find? (fun kv => kv.1 = k)
      = (d.find? (fun kv => kv.1 = k)).map (fun _ => (k, v)) := by
  induction d with
  | nil => rfl
  | cons a t ih =>
      by_cases hk : a.1 = k
      · simp only [List.map_cons, if_pos hk]
        rw [List.find?_cons_of_pos _ (by simp), List.find?_cons_of_pos _ (by simpa using hk)]
        rfl
      · simp only [List.map_cons, if_neg hk]
        rw [List.find?_cons_of_neg _ (by simpa using hk),
          List.find?_cons_of_neg _ (by simpa using hk)]
        exact ih

theorem find?_setMap_ne (d : Dict) (k k' : String) (v : Value) (hne : k' ≠ k) :
    (d.map (fun kv => if kv.1 = k then (k, v) else kv)).find? (fun kv => kv.1 = k')
      = d.find? (fun kv => kv.1 = k') := by
  induction d with
  | nil => rfl
  | cons a t ih =>
      by_cases hk : a.1 = k
      · simp only [List.map_cons, if_pos hk]
        rw [List.find?_cons_of_neg _ (by simpa using Ne.symm hne),
          List.find?_cons_of_neg _ (by simp [hk]; exact fun h => hne (h ▸ hk ▸ rfl))]
        exact ih
      · simp only [List.map_cons, if_neg hk]
        by_cases hk' : a.1 = k'
        · rw [List.find?_cons_of_pos _ (by simpa using hk'),
            List.find?_cons_of_pos _ (by simpa using hk')]
        · rw [List.find?_cons_of_neg _ (by simpa using hk'),
            List.find?_cons_of_neg _ (by simpa using hk')]
          exact ih

theorem dictGet_dictSet_self (d : Dict) (k : String) (v : Value) :
    dictGet (dictSet d k v) k = some v := by
  unfold dictGet dictSet
  split
  · rename_i h
    rw [find?_setMap_self]
    obtain ⟨kv, hkv⟩ := Option.isSome_iff_exists.mp h
    rw [hkv]
    rfl
  · rename_i h
    rw [List.find?_append]
    have hnone : List.find? (fun kv => decide (kv.1 = k)) d = none :=
      Option.not_isSome_iff_eq_none.mp h
    rw [hnone]
    simp [List.find?]

theorem dictGet_dictSet_ne (d : Dict) (k k' : String) (v : Value) (hne : k' ≠ k) :
    dictGet (dictSet d k v) k' = dictGet d k' := by
  unfold dictGet dictSet
  split
  · rw [find?_setMap_ne _ _ _ _ hne]
  · rw [List.find?_append]
    have : ([(k, v)].find? (fun kv => kv.1 = k')) = none := by
      simp [List.find?, Ne.symm hne]
    rw [this]
    cases d.find? (fun kv => kv.1 = k') <;> rfl

theorem dictGet_filter_ne (d : Dict) (s k : String) (hne : k ≠ s) :
    dictGet (d.filter (fun kv => kv.1 ≠ s)) k = dictGet d k := by
  unfold dictGet
  induction d with
  | nil => rfl
  | cons a t ih =>
      by_cases hs : a.1 = s
      · rw [List.filter_cons_of_neg (by simpa using hs),
          List.find?_cons_of_neg _ (by simp [hs, Ne.symm hne])]
        exact ih
      · rw [List.filter_cons_of_pos (by simpa using hs)]
        by_cases hk : a.1 = k
        · rw [List.find?_cons_of_pos _ (by simpa using hk),
            List.find?_cons_of_pos _ (by simpa using hk)]
        · rw [List.find?_cons_of_neg _ (by simpa using hk),
            List.find?_cons_of_neg _ (by simpa using hk)]
          exact ih

theorem getProp_append_left (l1 l2 : Props) (k : String) (v : PropValue)
    (h : getProp l1 k = some v) : getProp (l1 ++ l2) k = some v := by
  unfold getProp at h ⊢
  rw [List.find?_append]
  obtain ⟨kv, hkv, hv⟩ := Option.map_eq_some'.mp h
  rw [hkv]
  simpa using hv

theorem getProp_append_right (l1 l2 : Props) (k : String)
    (h : getProp l1 k = none) : getProp (l1 ++ l2) k = getProp l2 k := by
  unfold getProp at h ⊢
  rw [List.find?_append]
  cases hf : l1.find? (fun kv => kv.1 = k) with
  | none => rfl
  | some kv => rw [hf] at h; simp at h

end AutoRes

namespace AutoRes

theorem d2p_ne_nil (data : Dict) : data_to_properties data ≠ [] := by
  unfold data_to_properties
  intro h
  exact absurd (List.append_eq_nil.mp h).2 (by simp)

theorem getProp_d2p_confirmed (data : Dict) :
    getProp (data_to_properties data) "confirmed_booking" =
      some (.checkbox false) := by
  unfold data_to_properties
  rw [getProp_append_right]
  · rfl
  · unfold getProp
    rw [Option.map_eq_none']
    rw [List.find?_eq_none]
    intro kv hkv
    rw [List.mem_filterMap] at hkv
    obtain ⟨a, _, ha⟩ := hkv
    by_cases hv : a.2 = Value.vnone
    · simp [hv] at ha
    · rw [if_neg hv] at ha
      cases hf : FIELD_MAP a.1 with
      | none => rw [hf] at ha; simp at ha
      | some p =>
          rw [hf] at ha
          obtain ⟨col, ty⟩ := p
          simp only [Option.some.injEq] at ha
          have := FIELD_MAP_col_ne_confirmed a.1 (col, ty) hf
          subst ha
          simpa using this

theorem getProp_d2p (data : Dict) (k col : String) (ty : ColType) (v : Value)
    (hmap : FIELD_MAP k = some (col, ty))
    (hinj : ∀ k' p, FIELD_MAP k' = some p → p.1 = col → k' = k)
    (hget : dictGet data k = some v) (hv : v ≠ .vnone) :
    getProp (data_to_properties data) col = some (propOfField k v ty) := by
  unfold data_to_properties
  induction data with
  | nil => simp [dictGet, List.find?] at hget
  | cons a t ih =>
      by_cases hk : a.1 = k
      · have hav : a.2 = v := by
          unfold dictGet at hget
          rw [List.find?_cons_of_pos _ (by simpa using hk)] at hget
          simpa using hget
        rw [List.filterMap_cons]
        rw [if_neg (hav ▸ hv), hk, hmap]
        apply getProp_append_left
        unfold getProp
        rw [List.find?_cons_of_pos _ (by simp)]
        simp [hav, hk]
      · have hget' : dictGet t k = some v := by
          unfold dictGet at hget ⊢
          rwa [List.find?_cons_of_neg _ (by simpa using hk)] at hget
        rw [List.filterMap_cons]
        by_cases hvn : a.2 = Value.vnone
        · rw [if_pos hvn]
          exact ih hget'
        · rw [if_neg hvn]
          cases hf : FIELD_MAP a.1 with
          | none => exact ih hget'
          | some p =>
              obtain ⟨col', ty'⟩ := p
              have hcol : col' ≠ col := by
                intro hc
                exact hk (hinj a.1 (col', ty') hf (by simpa using hc) ▸ rfl)
              have := ih hget'
              rw [List.cons_append]
              unfold getProp at this ⊢
              rw [List.find?_cons_of_neg _ (by simpa using hcol)]
              exact this

end AutoRes

namespace AutoRes

theorem d2p_status_none (data : Dict) (hno : ∀ kv ∈ data, kv.1 ≠ "status") :
    getProp (data_to_properties data) "status" = none := by
  unfold data_to_properties getProp
  rw [Option.map_eq_none', List.find?_eq_none]
  intro kv hkv
  rw [List.mem_append] at hkv
  rcases hkv with hkv | hkv
  · rw [List.mem_filterMap] at hkv
    obtain ⟨a, ha, hconv⟩ := hkv
    by_cases hv : a.2 = Value.vnone
    · simp [hv] at hconv
    · rw [if_neg hv] at hconv
      cases hf : FIELD_MAP a.1 with
      | none => rw [hf] at hconv; simp at hconv
      | some p =>
          rw [hf] at hconv
          obtain ⟨col, ty⟩ := p
          simp only [Option.some.injEq] at hconv
          subst hconv
          simp only [decide_eq_true_eq]
          intro hcol
          exact hno a ha (FIELD_MAP_col_status a.1 (col, ty) hf hcol)
  · simp at hkv
    subst hkv
    decide

theorem getProp_d2p_booking (data : Dict) (v : Value)
    (hget : dictGet data "reservation_number" = some v) (hv : v ≠ .vnone) :
    getProp (data_to_properties data) "booking_num" = some (.title (pyStr v)) := by
  have := getProp_d2p data "reservation_number" "booking_num" .title v rfl
    (fun k' p h hc => FIELD_MAP_col_booking k' p h hc) hget hv
  rwa [show propOfField "reservation_number" v .title = .title (pyStr v) from rfl] at this

theorem getProp_d2p_edition (data : Dict) (v : Value)
    (hget : dictGet data "edition" = some v) (hv : v ≠ .vnone) :
    getProp (data_to_properties data) "edition" = some (.select (pyStr v)) := by
  have := getProp_d2p data "edition" "edition" .select v rfl
    (fun k' p h hc => FIELD_MAP_col_edition k' p h hc) hget hv
  rwa [show propOfField "edition" v .select = .select (pyStr v) from rfl] at this

theorem getProp_d2p_status (data : Dict) (v : Value)
    (hget : dictGet data "status" = some v) (hv : v ≠ .vnone) :
    getProp (data_to_properties data) "status" = some (.status (pyStr v)) := by
  have := getProp_d2p data "status" "status" .status v rfl
    (fun k' p h hc => FIELD_MAP_col_status k' p h hc) hget hv
  rwa [show propOfField "status" v .status = .status (pyStr v) from rfl] at this

theorem editionOfProps_of_getProp (props : Props) (e : Nat)
    (h : getProp props "edition" = some (.select (pyStrNat e))) :
    editionOfProps props = e := by
  unfold editionOfProps
  rw [h]
  show (if pyStrNat e = "" then 0 else parseNatDigits (pyStrNat e)) = e
  rw [if_neg (pyStrNat_ne_empty e)]
  exact parse_pyStrNat e

end AutoRes

namespace AutoRes

theorem pyStr_num_natCast (n : Nat) : pyStr (.num (n : Int)) = pyStrNat n := by
  show pyStrInt (n : Int) = pyStrNat n
  exact pyStrInt_natCast n

theorem pageMatches_true (res : Nat) (p : Page)
    (h : getProp p.props "booking_num" = some (.title (pyStrNat res))) :
    pageMatches res p = true := by
  unfold pageMatches
  rw [h]
  simp

theorem pageMatches_false (res res' : Nat) (p : Page) (hne : res' ≠ res)
    (h : getProp p.props "booking_num" = some (.title (pyStrNat res))) :
    pageMatches res' p = false := by
  unfold pageMatches
  rw [h]
  simp only [decide_eq_false_iff_not]
  intro hs
  exact hne (pyStrNat_inj hs).symm

theorem dictGet_authoritative_rn (gpt : Dict) (res ed : Nat) :
    dictGet (authoritative gpt res ed) "reservation_number" = some (.num res) := by
  unfold authoritative
  rw [dictGet_dictSet_ne _ _ _ _ (by decide), dictGet_dictSet_self]

theorem dictGet_authoritative_ed (gpt : Dict) (res ed : Nat) :
    dictGet (authoritative gpt res ed) "edition" = some (.num ed) := by
  unfold authoritative
  rw [dictGet_dictSet_self]

theorem dictGet_shapePayload_rn (gpt2 : Dict) (sv : Value) (res ed : Nat)
    (h : dictGet gpt2 "reservation_number" = some (.num res)) :
    dictGet (shapePayload gpt2 sv res ed) "reservation_number" = some (.num res) := by
  unfold shapePayload
  split
  · rfl
  · exact h

theorem dictGet_shapePayload_ed (gpt2 : Dict) (sv : Value) (res ed : Nat)
    (h : dictGet gpt2 "edition" = some (.num ed)) :
    dictGet (shapePayload gpt2 sv res ed) "edition" = some (.num ed) := by
  unfold shapePayload
  split
  · rfl
  · exact h

theorem dictGet_suppressData_ne (before : String) (data : Dict) (k : String)
    (hk : k ≠ "status") :
    dictGet (suppressData before data) k = dictGet data k := by
  unfold suppressData
  split
  · exact dictGet_filter_ne data "status" k hk
  · rfl

theorem map_pid_replaceFirst (st : Store) (pid : Nat) (props : Props) :
    (replaceFirstPage st pid props).map Page.pid = st.map Page.pid := by
  induction st with
  | nil => rfl
  | cons p rest ih =>
      unfold replaceFirstPage
      split
      · simp_all
      · simp [ih]

theorem length_replaceFirst (st : Store) (pid : Nat) (props : Props) :
    (replaceFirstPage st pid props).length = st.length := by
  have := congrArg List.length (map_pid_replaceFirst st pid props)
  simpa using this

end AutoRes

namespace AutoRes

theorem searchStore_append_found (st : Store) (res pidN : Nat) (props : Props)
    (hnone : searchStore st res = none)
    (hb : getProp props "booking_num" = some (.title (pyStrNat res))) :
    searchStore (st ++ [⟨pidN, props⟩]) res = some (pidN, editionOfProps props) := by
  unfold searchStore at hnone ⊢
  rw [List.find?_append]
  cases hf : st.find? (pageMatches res) with
  | some p => rw [hf] at hnone; simp at hnone
  | none =>
      rw [List.find?_cons_of_pos _ (pageMatches_true res ⟨pidN, props⟩ hb)]
      rfl

theorem searchStore_append_frame (st : Store) (res res' pidN : Nat) (props : Props)
    (hne : res' ≠ res)
    (hb : getProp props "booking_num" = some (.title (pyStrNat res))) :
    searchStore (st ++ [⟨pidN, props⟩]) res' = searchStore st res' := by
  unfold searchStore
  rw [List.find?_append]
  cases hf : st.find? (pageMatches res') with
  | some p => rfl
  | none =>
      rw [List.find?_cons_of_neg _ (by
        rw [pageMatches_false res res' ⟨pidN, props⟩ hne hb]; simp)]
      rfl

theorem getStatusLower_append_frame (st : Store) (res res' pidN : Nat) (props : Props)
    (hne : res' ≠ res)
    (hb : getProp props "booking_num" = some (.title (pyStrNat res))) :
    getStatusLower (st ++ [⟨pidN, props⟩]) res' = getStatusLower st res' := by
  unfold getStatusLower
  rw [List.find?_append]
  cases hf : st.find? (pageMatches res') with
  | some p => rfl
  | none =>
      rw [List.find?_cons_of_neg _ (by
        rw [pageMatches_false res res' ⟨pidN, props⟩ hne hb]; simp)]
      rfl

theorem searchStore_replaceFirst (st : Store) (res pid : Nat) (q : Page)
    (newProps : Props)
    (hnodup : (st.map Page.pid).Nodup)
    (hfind : st.find? (pageMatches res) = some q) (hq : q.pid = pid)
    (hb : getProp newProps "booking_num" = some (.title (pyStrNat res))) :
    searchStore (replaceFirstPage st pid newProps) res
      = some (pid, editionOfProps (newProps ++ q.props)) := by
  induction st with
  | nil => simp [List.find?] at hfind
  | cons p rest ih =>
      by_cases hm : pageMatches res p
      · rw [List.find?_cons_of_pos _ hm] at hfind
        have hpq : p = q := by simpa using hfind
        subst hpq
        unfold replaceFirstPage
        rw [if_pos hq]
        unfold searchStore
        rw [List.find?_cons_of_pos _ (pageMatches_true res _ (getProp_append_left _ _ _ _ hb))]
        simp [hq]
      · rw [List.find?_cons_of_neg _ (by simpa using hm)] at hfind
        have hqmem : q ∈ rest := List.mem_of_find?_eq_some hfind
        have hppid : p.pid ≠ pid := by
          intro hp
          have : q.pid ∈ rest.map Page.pid := List.mem_map_of_mem Page.pid hqmem
          rw [hq] at this
          rw [List.map_cons, List.nodup_cons] at hnodup
          exact hnodup.1 (hp ▸ this)
        unfold replaceFirstPage
        rw [if_neg hppid]
        unfold searchStore
        rw [List.find?_cons_of_neg _ (by simpa using hm)]
        have := ih (by rw [List.map_cons, List.nodup_cons] at hnodup; exact hnodup.2) hfind
        unfold searchStore at this
        exact this

theorem searchStore_replaceFirst_frame (st : Store) (res res' pid : Nat) (q : Page)
    (newProps : Props)
    (hne : res' ≠ res)
    (hnodup : (st.map Page.pid).Nodup)
    (hfind : st.find? (pageMatches res) = some q) (hq : q.pid = pid)
    (hb : getProp newProps "booking_num" = some (.title (pyStrNat res))) :
    searchStore (replaceFirstPage st pid newProps) res' = searchStore st res' := by
  induction st with
  | nil => simp [List.find?] at hfind
  | cons p rest ih =>
      by_cases hm : pageMatches res p
      · rw [List.find?_cons_of_pos _ hm] at hfind
        have hpq : p = q := by simpa using hfind
        subst hpq
        unfold replaceFirstPage
        rw [if_pos hq]
        have hpm : pageMatches res p = true := hm
        have hbq : ∃ s, getProp p.props "booking_num" = some (.title s) ∧ s = pyStrNat res := by
          unfold pageMatches at hpm
          cases hg : getProp p.props "booking_num" with
          | none => rw [hg] at hpm; simp at hpm
          | some pv =>
              cases pv with
              | title s => rw [hg] at hpm; simp at hpm; exact ⟨s, rfl, hpm⟩
              | number n => rw [hg] at hpm; simp at hpm
              | email s => rw [hg] at hpm; simp at hpm
              | select s => rw [hg] at hpm; simp at hpm
              | status s => rw [hg] at hpm; simp at hpm
              | date s => rw [hg] at hpm; simp at hpm
              | checkbox b => rw [hg] at hpm; simp at hpm
        obtain ⟨s, hgq, hs⟩ := hbq
        unfold searchStore
        rw [List.find?_cons_of_neg _ (by
          rw [pageMatches_false res res' _ hne (getProp_append_left _ _ _ _ (hs ▸ hb))]
          simp)]
        rw [List.find?_cons_of_neg _ (by
          rw [pageMatches_false res res' p hne (hs ▸ hgq)]
          simp)]
      · rw [List.find?_cons_of_neg _ (by simpa using hm)] at hfind
        have hqmem : q ∈ rest := List.mem_of_find?_eq_some hfind
        have hppid : p.pid ≠ pid := by
          intro hp
          have : q.pid ∈ rest.map Page.pid := List.mem_map_of_mem Page.pid hqmem
          rw [hq] at this
          rw [List.map_cons, List.nodup_cons] at hnodup
          exact hnodup.1 (hp ▸ this)
        unfold replaceFirstPage
        rw [if_neg hppid]
        unfold searchStore
        by_cases hm' : pageMatches res' p
        · rw [List.find?_cons_of_pos _ hm', List.find?_cons_of_pos _ hm']
        · rw [List.find?_cons_of_neg _ (by simpa using hm'),
            List.find?_cons_of_neg _ (by simpa using hm')]
          have := ih (by rw [List.map_cons, List.nodup_cons] at hnodup; exact hnodup.2) hfind
          unfold searchStore at this
          exact this

end AutoRes

namespace AutoRes

theorem searchStore_inv (st : Store) (res pid sed : Nat)
    (h : searchStore st res = some (pid, sed)) :
    ∃ q, st.find? (pageMatches res) = some q ∧ q.pid = pid ∧
      editionOfProps q.props = sed := by
  unfold searchStore at h
  cases hf : st.find? (pageMatches res) with
  | none => rw [hf] at h; exact absurd h (by simp)
  | some q =>
      rw [hf] at h
      simp only [Option.some.injEq, Prod.mk.injEq] at h
      exact ⟨q, rfl, h.1, h.2⟩

theorem find?_pid_of_search (st : Store) (res pid : Nat) (q : Page)
    (hnodup : (st.map Page.pid).Nodup)
    (hfind : st.find? (pageMatches res) = some q) (hq : q.pid = pid) :
    st.find? (fun p => p.pid = pid) = some q := by
  induction st with
  | nil => simp [List.find?] at hfind
  | cons p rest ih =>
      by_cases hm : pageMatches res p
      · rw [List.find?_cons_of_pos _ hm] at hfind
        have hpq : p = q := by simpa using hfind
        subst hpq
        exact List.find?_cons_of_pos _ (by simpa using hq)
      · rw [List.find?_cons_of_neg _ (by simpa using hm)] at hfind
        have hqmem : q ∈ rest := List.mem_of_find?_eq_some hfind
        have hppid : p.pid ≠ pid := by
          intro hp
          have : q.pid ∈ rest.map Page.pid := List.mem_map_of_mem Page.pid hqmem
          rw [hq] at this
          rw [List.map_cons, List.nodup_cons] at hnodup
          exact hnodup.1 (hp ▸ this)
        rw [List.find?_cons_of_neg _ (by simpa using hppid)]
        exact ih (by rw [List.map_cons, List.nodup_cons] at hnodup; exact hnodup.2) hfind

theorem create_store_shape (f : Faults) (st : Store) (data : Dict) :
    (create_notion_entry f st data).2.1 = st ∨
    (create_notion_entry f st data).2.1 = st ++ [⟨freshId st, data_to_properties data⟩] := by
  unfold create_notion_entry
  split
  · exact Or.inl rfl
  · split
    · exact Or.inr rfl
    · split
      · exact Or.inr rfl
      · exact Or.inr rfl

theorem update_store_shape (f : Faults) (st : Store) (pid : Nat) (data : Dict) :
    (update_notion_entry f st pid data).2.1 = st ∨
    ∃ page, st.find? (fun p => p.pid = pid) = some page ∧
      (update_notion_entry f st pid data).2.1 =
        replaceFirstPage st pid
          (data_to_properties (suppressData (beforeStatusOf page) data)) := by
  unfold update_notion_entry
  split
  · exact Or.inl rfl
  · rename_i page hpage
    dsimp only
    split
    · exact Or.inl rfl
    · split
      · exact Or.inl rfl
      · split
        · exact Or.inr ⟨page, hpage, rfl⟩
        · split
          · exact Or.inr ⟨page, hpage, rfl⟩
          · exact Or.inr ⟨page, hpage, rfl⟩

end AutoRes

namespace AutoRes

theorem processPdfTry_store_shape (st : Store) (j : Job) (found : Option (Nat × Nat)) :
    (processPdfTry st j found).2.1 = st ∨
    (found = none ∧ ∃ data,
      dictGet data "reservation_number" = some (.num j.res) ∧
      dictGet data "edition" = some (.num j.ed) ∧
      (processPdfTry st j found).2.1 = st ++ [⟨freshId st, data_to_properties data⟩]) ∨
    (∃ pid sed, found = some (pid, sed) ∧ sed < j.ed ∧ ∃ data2,
      dictGet data2 "reservation_number" = some (.num j.res) ∧
      dictGet data2 "edition" = some (.num j.ed) ∧
      (processPdfTry st j found).2.1 = replaceFirstPage st pid (data_to_properties data2)) := by
  cases hdoc : j.doc with
  | none => left; simp [processPdfTry, hdoc]
  | some gpt =>
      cases hrnv : dictGet gpt "reservation_number" with
      | none => left; simp [processPdfTry, hdoc, hrnv]
      | some rnv =>
          cases hrn : pyIntOfValue rnv with
          | none => left; simp [processPdfTry, hdoc, hrnv, hrn]
          | some rn =>
              cases hsv : dictGet (authoritative gpt j.res j.ed) "status" with
              | none => left; simp [processPdfTry, hdoc, hrnv, hrn, hsv]
              | some sv =>
                  cases found with
                  | none =>
                      simp only [processPdfTry, hdoc, hrnv, hrn, hsv]
                      rcases create_store_shape j.faults st
                          (shapePayload (authoritative gpt j.res j.ed) sv j.res j.ed) with h | h
                      · exact Or.inl h
                      · exact Or.inr (Or.inl ⟨trivial,
                          shapePayload (authoritative gpt j.res j.ed) sv j.res j.ed,
                          dictGet_shapePayload_rn _ _ _ _ (dictGet_authoritative_rn gpt j.res j.ed),
                          dictGet_shapePayload_ed _ _ _ _ (dictGet_authoritative_ed gpt j.res j.ed),
                          h⟩)
                  | some pr =>
                      obtain ⟨pid, sed⟩ := pr
                      by_cases hlt : sed < j.ed
                      · simp only [processPdfTry, hdoc, hrnv, hrn, hsv, if_pos hlt]
                        rcases update_store_shape j.faults st pid
                            (shapePayload (authoritative gpt j.res j.ed) sv j.res j.ed) with h | h
                        · exact Or.inl h
                        · obtain ⟨page, hpage, hst⟩ := h
                          refine Or.inr (Or.inr ⟨pid, sed, rfl, hlt,
                            suppressData (beforeStatusOf page)
                              (shapePayload (authoritative gpt j.res j.ed) sv j.res j.ed),
                            ?_, ?_, hst⟩)
                          · rw [dictGet_suppressData_ne _ _ _ (by decide)]
                            exact dictGet_shapePayload_rn _ _ _ _
                              (dictGet_authoritative_rn gpt j.res j.ed)
                          · rw [dictGet_suppressData_ne _ _ _ (by decide)]
                            exact dictGet_shapePayload_ed _ _ _ _
                              (dictGet_authoritative_ed gpt j.res j.ed)
                      · left
                        simp [processPdfTry, hdoc, hrnv, hrn, hsv, if_neg hlt]

end AutoRes

namespace AutoRes

theorem process_store_shape (st : Store) (j : Job) :
    (process_pdf st j).2.1 = st ∨
    (∃ data, searchStore st j.res = none ∧
      dictGet data "reservation_number" = some (.num j.res) ∧
      dictGet data "edition" = some (.num j.ed) ∧
      (process_pdf st j).2.1 = st ++ [⟨freshId st, data_to_properties data⟩]) ∨
    (∃ pid sed data2, searchStore st j.res = some (pid, sed) ∧ sed < j.ed ∧
      dictGet data2 "reservation_number" = some (.num j.res) ∧
      dictGet data2 "edition" = some (.num j.ed) ∧
      (process_pdf st j).2.1 = replaceFirstPage st pid (data_to_properties data2)) := by
  by_cases hle : j.faults.lookupErr
  · left; simp [process_pdf, hle]
  · cases hfound : searchStore st j.res with
    | none =>
        have hred : (process_pdf st j).2.1 = (processPdfTry st j none).2.1 := by
          simp [process_pdf, hle, hfound]
        rcases processPdfTry_store_shape st j none with h | h | h
        · left; rw [hred]; exact h
        · obtain ⟨-, data, h1, h2, h3⟩ := h
          exact Or.inr (Or.inl ⟨data, rfl, h1, h2, hred.trans h3⟩)
        · obtain ⟨pid, sed, hcon, -⟩ := h
          exact absurd hcon (by simp)
    | some pr =>
        obtain ⟨pid, sed⟩ := pr
        by_cases hskip : j.ed ≤ sed ∧ statusIsTerminal (getStatusLower st j.res)
        · left; simp [process_pdf, hle, hfound, hskip]
        · have hred : (process_pdf st j).2.1 = (processPdfTry st j (some (pid, sed))).2.1 := by
            simp [process_pdf, hle, hfound, hskip]
          rcases processPdfTry_store_shape st j (some (pid, sed)) with h | h | h
          · left; rw [hred]; exact h
          · obtain ⟨hcon, -⟩ := h
            exact absurd hcon (by simp)
          · obtain ⟨pid', sed', hcon, hlt, data2, h1, h2, h3⟩ := h
            obtain ⟨hp, hs⟩ : pid = pid' ∧ sed = sed' := by
              have := hcon
              simp only [Option.some.injEq, Prod.mk.injEq] at this
              exact this
            subst hp; subst hs
            exact Or.inr (Or.inr ⟨pid, sed, data2, rfl, hlt, h1, h2, hred.trans h3⟩)

end AutoRes

namespace AutoRes

theorem booking_prop_of_rn (data : Dict) (res : Nat)
    (h : dictGet data "reservation_number" = some (.num (res : Int))) :
    getProp (data_to_properties data) "booking_num" = some (.title (pyStrNat res)) := by
  have := getProp_d2p_booking data _ h (by intro hc; cases hc)
  rwa [pyStr_num_natCast] at this

theorem edition_prop_of_ed (data : Dict) (ed : Nat)
    (h : dictGet data "edition" = some (.num (ed : Int))) :
    getProp (data_to_properties data) "edition" = some (.select (pyStrNat ed)) := by
  have := getProp_d2p_edition data _ h (by intro hc; cases hc)
  rwa [pyStr_num_natCast] at this

theorem nodup_of_WF (st : Store) (hwf : WFStore st) : (st.map Page.pid).Nodup := by
  rw [hwf]
  exact List.nodup_range _

theorem WF_process (st : Store) (j : Job) (hwf : WFStore st) :
    WFStore (process_pdf st j).2.1 := by
  rcases process_store_shape st j with hst | ⟨data, hnone, hrn, hed, hst⟩ |
    ⟨pid, sed, data2, hsome, hlt, hrn, hed, hst⟩
  · rw [hst]; exact hwf
  · rw [hst]
    unfold WFStore at hwf ⊢
    rw [List.map_append, hwf]
    simp [freshId, List.range_succ]
  · rw [hst]
    unfold WFStore at hwf ⊢
    rw [map_pid_replaceFirst, length_replaceFirst]
    exact hwf

theorem dictGet_authoritative_other (gpt : Dict) (res ed : Nat) (k : String)
    (h1 : k ≠ "reservation_number") (h2 : k ≠ "edition") :
    dictGet (authoritative gpt res ed) k = dictGet gpt k := by
  unfold authoritative
  rw [dictGet_dictSet_ne _ _ _ _ h2, dictGet_dictSet_ne _ _ _ _ h1]

theorem create_store_write (f : Faults) (st : Store) (data : Dict)
    (hc : f.createErr = false) :
    (create_notion_entry f st data).2.1 = st ++ [⟨freshId st, data_to_properties data⟩] := by
  unfold create_notion_entry
  rw [if_neg (by simp [hc])]
  dsimp only
  split
  · rfl
  · split <;> rfl

theorem update_store_write (f : Faults) (st : Store) (pid : Nat) (data : Dict)
    (page : Page) (hu : f.updateErr = false)
    (hpage : st.find? (fun p => p.pid = pid) = some page) :
    (update_notion_entry f st pid data).2.1 =
      replaceFirstPage st pid
        (data_to_properties (suppressData (beforeStatusOf page) data)) := by
  unfold update_notion_entry
  rw [hpage]
  dsimp only
  rw [if_neg (by
    rw [List.isEmpty_iff]
    exact d2p_ne_nil _)]
  rw [if_neg (by simp [hu])]
  split
  · rfl
  · split <;> rfl

end AutoRes

namespace AutoRes

theorem goodDoc_parts (g : Dict) (hgood : goodDoc g = true) :
    (∃ rnv rn, dictGet g "reservation_number" = some rnv ∧ pyIntOfValue rnv = some rn) ∧
    ∃ sv, dictGet g "status" = some sv := by
  unfold goodDoc at hgood
  rw [Bool.and_eq_true] at hgood
  constructor
  · obtain ⟨h1, -⟩ := hgood
    cases hrnv : dictGet g "reservation_number" with
    | none => rw [hrnv] at h1; simp at h1
    | some rnv =>
        rw [hrnv] at h1
        cases hrn : pyIntOfValue rnv with
        | none => rw [Option.some_bind, hrn] at h1; simp at h1
        | some rn => exact ⟨rnv, rn, rfl, hrn⟩
  · obtain ⟨-, h2⟩ := hgood
    cases hsv : dictGet g "status" with
    | none => rw [hsv] at h2; simp at h2
    | some sv => exact ⟨sv, rfl⟩

theorem process_create_write (st : Store) (j : Job) (g : Dict)
    (hf : j.faults = noFaults) (hdoc : j.doc = some g) (hgood : goodDoc g = true)
    (hnone : searchStore st j.res = none) :
    ∃ data, dictGet data "reservation_number" = some (.num j.res) ∧
      dictGet data "edition" = some (.num j.ed) ∧
      (process_pdf st j).2.1 = st ++ [⟨freshId st, data_to_properties data⟩] := by
  obtain ⟨⟨rnv, rn, hrnv, hrn⟩, sv, hsv⟩ := goodDoc_parts g hgood
  have hsv2 : dictGet (authoritative g j.res j.ed) "status" = some sv := by
    rw [dictGet_authoritative_other _ _ _ _ (by decide) (by decide)]
    exact hsv
  refine ⟨shapePayload (authoritative g j.res j.ed) sv j.res j.ed,
    dictGet_shapePayload_rn _ _ _ _ (dictGet_authoritative_rn g j.res j.ed),
    dictGet_shapePayload_ed _ _ _ _ (dictGet_authoritative_ed g j.res j.ed), ?_⟩
  have hle : j.faults.lookupErr = false := by rw [hf]; rfl
  have hred : (process_pdf st j).2.1 = (processPdfTry st j none).2.1 := by
    simp [process_pdf, hle, hnone]
  rw [hred]
  have hce : j.faults.createErr = false := by rw [hf]; rfl
  simp only [processPdfTry, hdoc, hrnv, hrn, hsv2]
  exact create_store_write j.faults st _ hce

end AutoRes

namespace AutoRes

theorem process_skip (st : Store) (j : Job) (pid sed : Nat)
    (hsome : searchStore st j.res = some (pid, sed)) (hle : j.ed ≤ sed) :
    (process_pdf st j).2.1 = st := by
  rcases process_store_shape st j with hst | ⟨data, hnone, -⟩ |
    ⟨pid', sed', data2, hsome', hlt, -⟩
  · exact hst
  · rw [hnone] at hsome; exact absurd hsome (by simp)
  · rw [hsome'] at hsome
    simp only [Option.some.injEq, Prod.mk.injEq] at hsome
    omega

theorem process_update_write (st : Store) (j : Job) (g : Dict) (pid sed : Nat)
    (hwf : WFStore st)
    (hf : j.faults = noFaults) (hdoc : j.doc = some g) (hgood : goodDoc g = true)
    (hsome : searchStore st j.res = some (pid, sed)) (hlt : sed < j.ed) :
    ∃ data2 page, st.find? (fun p => p.pid = pid) = some page ∧
      dictGet data2 "reservation_number" = some (.num j.res) ∧
      dictGet data2 "edition" = some (.num j.ed) ∧
      (process_pdf st j).2.1 = replaceFirstPage st pid (data_to_properties data2) := by
  obtain ⟨⟨rnv, rn, hrnv, hrn⟩, sv, hsv⟩ := goodDoc_parts g hgood
  have hsv2 : dictGet (authoritative g j.res j.ed) "status" = some sv := by
    rw [dictGet_authoritative_other _ _ _ _ (by decide) (by decide)]
    exact hsv
  obtain ⟨q, hfind, hqpid, hqed⟩ := searchStore_inv st j.res pid sed hsome
  have hpage : st.find? (fun p => p.pid = pid) = some q :=
    find?_pid_of_search st j.res pid q (nodup_of_WF st hwf) hfind hqpid
  have hle : j.faults.lookupErr = false := by rw [hf]; rfl
  have hue : j.faults.updateErr = false := by rw [hf]; rfl
  have hnoskip : ¬(j.ed ≤ sed ∧ statusIsTerminal (getStatusLower st j.res)) := by
    intro h
    omega
  have hred : (process_pdf st j).2.1 = (processPdfTry st j (some (pid, sed))).2.1 := by
    simp [process_pdf, hle, hsome, hnoskip]
  refine ⟨suppressData (beforeStatusOf q)
      (shapePayload (authoritative g j.res j.ed) sv j.res j.ed), q, hpage, ?_, ?_, ?_⟩
  · rw [dictGet_suppressData_ne _ _ _ (by decide)]
    exact dictGet_shapePayload_rn _ _ _ _ (dictGet_authoritative_rn g j.res j.ed)
  · rw [dictGet_suppressData_ne _ _ _ (by decide)]
    exact dictGet_shapePayload_ed _ _ _ _ (dictGet_authoritative_ed g j.res j.ed)
  · rw [hred]
    simp only [processPdfTry, hdoc, hrnv, hrn, hsv2, if_pos hlt]
    exact update_store_write j.faults st pid _ q hue hpage

end AutoRes

namespace AutoRes

theorem storedEd_after_create (st : Store) (res ed pidN : Nat) (data : Dict)
    (hnone : searchStore st res = none)
    (hrn : dictGet data "reservation_number" = some (.num res))
    (hed : dictGet data "edition" = some (.num ed)) :
    storedEditionOpt (st ++ [⟨pidN, data_to_properties data⟩]) res = some ed := by
  unfold storedEditionOpt
  rw [searchStore_append_found st res pidN _ hnone (booking_prop_of_rn data res hrn)]
  rw [Option.map_some']
  rw [editionOfProps_of_getProp _ ed (edition_prop_of_ed data ed hed)]

theorem storedEd_after_update (st : Store) (res ed pid : Nat) (q : Page) (data2 : Dict)
    (hnodup : (st.map Page.pid).Nodup)
    (hfind : st.find? (pageMatches res) = some q) (hq : q.pid = pid)
    (hrn : dictGet data2 "reservation_number" = some (.num res))
    (hed : dictGet data2 "edition" = some (.num ed)) :
    storedEditionOpt (replaceFirstPage st pid (data_to_properties data2)) res = some ed := by
  unfold storedEditionOpt
  rw [searchStore_replaceFirst st res pid q _ hnodup hfind hq (booking_prop_of_rn data2 res hrn)]
  rw [Option.map_some']
  rw [editionOfProps_of_getProp _ ed
    (getProp_append_left _ _ _ _ (edition_prop_of_ed data2 ed hed))]

theorem stored_mono_step (st : Store) (j : Job) (res e : Nat)
    (hnodup : (st.map Page.pid).Nodup)
    (h : storedEditionOpt st res = some e) :
    ∃ e', storedEditionOpt (process_pdf st j).2.1 res = some e' ∧ e ≤ e' := by
  rcases process_store_shape st j with hst | ⟨data, hnone, hrn, hed, hst⟩ |
    ⟨pid, sed, data2, hsome, hlt, hrn, hed, hst⟩
  · exact ⟨e, by rw [hst]; exact h, le_rfl⟩
  · by_cases hres : res = j.res
    · subst hres
      unfold storedEditionOpt at h
      rw [hnone] at h
      exact absurd h (by simp)
    · refine ⟨e, ?_, le_rfl⟩
      rw [hst]
      unfold storedEditionOpt
      rw [searchStore_append_frame st j.res res _ _ hres (booking_prop_of_rn data j.res hrn)]
      exact h
  · obtain ⟨q, hfind, hqpid, hqed⟩ := searchStore_inv st j.res pid sed hsome
    by_cases hres : res = j.res
    · subst hres
      have he : sed = e := by
        unfold storedEditionOpt at h
        rw [hsome] at h
        simpa using h
      refine ⟨j.ed, ?_, by omega⟩
      rw [hst]
      exact storedEd_after_update st j.res j.ed pid q data2 hnodup hfind hqpid hrn hed
    · refine ⟨e, ?_, le_rfl⟩
      rw [hst]
      unfold storedEditionOpt
      rw [searchStore_replaceFirst_frame st j.res res pid q _ hres hnodup hfind hqpid
        (booking_prop_of_rn data2 j.res hrn)]
      exact h

end AutoRes

namespace AutoRes

theorem processPdfTry_returns (st : Store) (j : Job) (found : Option (Nat × Nat)) :
    (processPdfTry st j found).2.2 = true := by
  unfold processPdfTry
  repeat' first | rfl | split | dsimp only

theorem process_pdf_no_raise (st : Store) (j : Job)
    (hle : j.faults.lookupErr = false) :
    (process_pdf st j).2.2 = true := by
  unfold process_pdf
  rw [if_neg (by simp [hle])]
  dsimp only
  split
  · split
    · rfl
    · exact processPdfTry_returns st j _
  · exact processPdfTry_returns st j _

theorem runJobs_cons_store_ok (st : Store) (j : Job) (rest : List Job)
    (hok : (process_pdf st j).2.2 = true) :
    (runJobs st (j :: rest)).2.1 = (runJobs (process_pdf st j).2.1 rest).2.1 := by
  conv_lhs => rw [runJobs]
  rw [if_pos hok]

theorem storedEd_some_inv (st : Store) (res cur : Nat)
    (h : storedEditionOpt st res = some cur) :
    ∃ pid, searchStore st res = some (pid, cur) := by
  unfold storedEditionOpt at h
  cases hs : searchStore st res with
  | none => rw [hs] at h; exact absurd h (by simp)
  | some pr =>
      rw [hs] at h
      obtain ⟨pid, sed⟩ := pr
      refine ⟨pid, ?_⟩
      simp only [Option.map_some'] at h
      simp only [Option.some.injEq] at h
      rw [h]

theorem runJobs_max_aux (jobs : List Job) : ∀ (st : Store) (res cur : Nat),
    WFStore st →
    storedEditionOpt st res = some cur →
    (∀ j ∈ jobs, j.res = res ∧ j.faults = noFaults ∧
      ∃ g, j.doc = some g ∧ goodDoc g = true) →
    List.Chain' (fun a b => a ≤ b) (cur :: jobs.map Job.ed) →
    storedEditionOpt (runJobs st jobs).2.1 res =
      some (jobs.foldl (fun m j => max m j.ed) cur) := by
  induction jobs with
  | nil => intro st res cur _ h _ _; exact h
  | cons j rest ih =>
      intro st res cur hwf hcur hjobs hchain
      obtain ⟨hres, hf, g, hdoc, hgood⟩ := hjobs j (List.mem_cons_self j rest)
      have hle : j.faults.lookupErr = false := by rw [hf]; rfl
      have hok := process_pdf_no_raise st j hle
      rw [runJobs_cons_store_ok st j rest hok]
      have hcle : cur ≤ j.ed := by
        have := hchain.rel_head
        simpa using this
      obtain ⟨pid, hsome⟩ := storedEd_some_inv st res cur hcur
      have hsome' : searchStore st j.res = some (pid, cur) := by rw [hres]; exact hsome
      have hchain' : List.Chain' (fun a b => a ≤ b) (j.ed :: rest.map Job.ed) := by
        have := hchain.tail
        simpa using this
      by_cases hlt : cur < j.ed
      · obtain ⟨data2, page, hpage, hrn, hed, hst⟩ :=
          process_update_write st j g pid cur hwf hf hdoc hgood hsome' hlt
        obtain ⟨q, hfind, hqpid, hqed⟩ := searchStore_inv st j.res pid cur hsome'
        have hstored : storedEditionOpt (process_pdf st j).2.1 res = some j.ed := by
          rw [hst, ← hres]
          exact storedEd_after_update st j.res j.ed pid q data2 (nodup_of_WF st hwf)
            hfind hqpid hrn hed
        have := ih (process_pdf st j).2.1 res j.ed (WF_process st j hwf) hstored
          (fun x hx => hjobs x (List.mem_cons_of_mem j hx)) hchain'
        rw [List.foldl_cons]
        rw [show max cur j.ed = j.ed by omega]
        exact this
      · have heq : j.ed = cur := by omega
        have hst : (process_pdf st j).2.1 = st := process_skip st j pid cur hsome' (by omega)
        have := ih (process_pdf st j).2.1 res cur (by rw [hst]; exact hwf)
          (by rw [hst]; exact hcur)
          (fun x hx => hjobs x (List.mem_cons_of_mem j hx))
          (by rw [heq] at hchain'; exact hchain')
        rw [List.foldl_cons]
        rw [show max cur j.ed = cur by omega]
        exact this

end AutoRes

namespace AutoRes

/-- C1: for every call of process_pdf, the create/update/skip decision (with
the status-suppression flag) matches the section 4.2 policy of the spec;
in particular equal editions are not newer (strict > required to update). -/
theorem c1_decision_matches_policy :
    ∀ (page : Option (Nat × Option String)) (edition : Nat),
      codeDecision page edition =
        specPolicy (page.map (fun pr => pr.1)) (page.bind (fun pr => pr.2)) edition := by
  intro page edition
  cases page with
  | none => rfl
  | some pr =>
      obtain ⟨sed, status⟩ := pr
      simp only [codeDecision, specPolicy, Option.map_some', Option.some_bind]
      by_cases h1 : statusIsTerminal status <;>
        by_cases h2 : edition ≤ sed <;>
          by_cases h3 : statusIsHardTerminal status <;>
            simp [h1, h2, h3, Nat.lt_iff_add_one_le, Nat.not_le]

end AutoRes

namespace AutoRes

/-- C2: when a record exists, the incoming edition is not newer, and the
stored status is terminal, process_pdf returns right after the early check:
the only events are the start and skip-terminal audit logs (no extraction,
no create or update call, no notification), the store is unchanged, and no
exception escapes. -/
theorem process_pdf_terminal_skip (st : Store) (j : Job) (pid sed : Nat)
    (hnf : j.faults.lookupErr = false)
    (hfound : searchStore st j.res = some (pid, sed))
    (hed : j.ed ≤ sed)
    (hterm : statusIsTerminal (getStatusLower st j.res) = true) :
    process_pdf st j =
      ([.log "main" "start_pdf", .log "main" "skip_terminal"], st, true) := by
  unfold process_pdf
  rw [if_neg (by simp [hnf])]
  dsimp only
  rw [hfound]
  dsimp only
  rw [if_pos ⟨hed, hterm⟩]
  rfl

theorem c2_terminal_early_skip (st : Store) (j : Job) (pid sed : Nat)
    (hnf : j.faults.lookupErr = false)
    (hfound : searchStore st j.res = some (pid, sed))
    (hed : j.ed ≤ sed)
    (hterm : statusIsTerminal (getStatusLower st j.res) = true) :
    process_pdf st j =
      ([.log "main" "start_pdf", .log "main" "skip_terminal"], st, true) :=
  process_pdf_terminal_skip st j pid sed hnf hfound hed hterm

theorem c2_terminal_early_skip_witness :
    process_pdf
        [⟨0, [("booking_num", .title "7"), ("edition", .select "2"),
              ("status", .status "closed")]⟩]
        ⟨some [("reservation_number", .num 7), ("status", .str "updated")], 7, 1, noFaults⟩ =
      ([.log "main" "start_pdf", .log "main" "skip_terminal"],
        [⟨0, [("booking_num", .title "7"), ("edition", .select "2"),
              ("status", .status "closed")]⟩], true) := by
  apply c2_terminal_early_skip _ _ 0 2
  · rfl
  · decide
  · decide
  · decide

end AutoRes

namespace AutoRes

/-- C3: (1) one process_pdf step never decreases the stored edition of any
reservation number (any job, any faults, any store with well-formed page
ids); (2) for a run from the empty store over jobs on one reservation
number with non-decreasing asserted editions, successful extraction and no
collaborator faults, the final stored edition is the maximum asserted
edition seen (terminal skips, which only fire on non-newer editions,
cannot break this). -/
theorem c3_edition_monotone :
    (∀ (st : Store) (j : Job) (res e : Nat),
      (st.map Page.pid).Nodup →
      storedEditionOpt st res = some e →
      ∃ e', storedEditionOpt (process_pdf st j).2.1 res = some e' ∧ e ≤ e') ∧
    (∀ (jobs : List Job) (res : Nat), jobs ≠ [] →
      (∀ j ∈ jobs, j.res = res ∧ j.faults = noFaults ∧
        ∃ g, j.doc = some g ∧ goodDoc g = true) →
      List.Chain' (fun a b => a ≤ b) (jobs.map Job.ed) →
      storedEditionOpt (runJobs [] jobs).2.1 res =
        some (jobs.foldl (fun m j => max m j.ed) 0)) := by
  constructor
  · exact fun st j res e hnodup h => stored_mono_step st j res e hnodup h
  · intro jobs res hne hjobs hchain
    cases jobs with
    | nil => exact absurd rfl hne
    | cons j rest =>
        obtain ⟨hres, hf, g, hdoc, hgood⟩ := hjobs j (List.mem_cons_self j rest)
        have hnone : searchStore [] j.res = none := rfl
        obtain ⟨data, hrn, hed, hst⟩ := process_create_write [] j g hf hdoc hgood hnone
        have hok := process_pdf_no_raise [] j (by rw [hf]; rfl)
        rw [runJobs_cons_store_ok [] j rest hok]
        have hstored : storedEditionOpt (process_pdf [] j).2.1 res = some j.ed := by
          rw [hst, ← hres]
          exact storedEd_after_create [] j.res j.ed (freshId []) data (by rw [hres] at hnone ⊢; exact hnone) hrn hed
        have hwf1 : WFStore (process_pdf [] j).2.1 := WF_process [] j rfl
        have hchain' : List.Chain' (fun a b => a ≤ b) (j.ed :: rest.map Job.ed) := by
          simpa using hchain
        have := runJobs_max_aux rest (process_pdf [] j).2.1 res j.ed hwf1 hstored
          (fun x hx => hjobs x (List.mem_cons_of_mem j hx)) hchain'
        rw [this]
        rw [List.foldl_cons]
        rw [show max 0 j.ed = j.ed by omega]

end AutoRes

namespace AutoRes

theorem c3_edition_monotone_witness :
    (∃ e', storedEditionOpt
        (process_pdf
          [⟨0, [("booking_num", .title "7"), ("edition", .select "1")]⟩]
          ⟨some [("reservation_number", .num 7), ("status", .str "updated")], 7, 2, noFaults⟩).2.1
        7 = some e' ∧ 1 ≤ e') ∧
    storedEditionOpt
        (runJobs []
          [⟨some [("reservation_number", .num 7), ("status", .str "future_order")], 7, 0, noFaults⟩,
           ⟨some [("reservation_number", .num 7), ("status", .str "future_order")], 7, 1, noFaults⟩]).2.1
        7 = some 1 := by
  constructor
  · exact c3_edition_monotone.1
      [⟨0, [("booking_num", .title "7"), ("edition", .select "1")]⟩]
      ⟨some [("reservation_number", .num 7), (("status", .str "updated"))], 7, 2, noFaults⟩
      7 1 (by decide) (by decide)
  · have := c3_edition_monotone.2
      [⟨some [("reservation_number", .num 7), ("status", .str "future_order")], 7, 0, noFaults⟩,
       ⟨some [("reservation_number", .num 7), ("status", .str "future_order")], 7, 1, noFaults⟩]
      7 (by decide)
      (by
        intro j hj
        simp only [List.mem_cons, List.not_mem_nil, or_false] at hj
        rcases hj with rfl | rfl <;>
          exact ⟨rfl, rfl, [("reservation_number", .num 7), ("status", .str "future_order")],
            rfl, by decide⟩)
      (by
        simp only [List.map_cons, List.map_nil]
        exact List.chain'_pair.mpr (by omega))
    simpa using this

end AutoRes

namespace AutoRes

theorem find?_replaceFirst (st : Store) (pid : Nat) (newProps : Props) (page : Page)
    (hfind : st.find? (fun p => p.pid = pid) = some page) :
    (replaceFirstPage st pid newProps).find? (fun p => p.pid = pid) =
      some { page with props := newProps ++ page.props } := by
  induction st with
  | nil => simp [List.find?] at hfind
  | cons p rest ih =>
      by_cases hp : p.pid = pid
      · rw [List.find?_cons_of_pos _ (by simpa using hp)] at hfind
        have hppage : p = page := by simpa using hfind
        subst hppage
        unfold replaceFirstPage
        rw [if_pos hp]
        exact List.find?_cons_of_pos _ (by simpa using hp)
      · rw [List.find?_cons_of_neg _ (by simpa using hp)] at hfind
        unfold replaceFirstPage
        rw [if_neg hp]
        rw [List.find?_cons_of_neg _ (by simpa using hp)]
        exact ih hfind

theorem update_notion_entry_success (f : Faults) (st : Store) (pid : Nat)
    (data : Dict) (page : Page) (rv : Value)
    (hu : f.updateErr = false) (hn : f.notifyErr = false)
    (hpage : st.find? (fun p => p.pid = pid) = some page)
    (hrn : dictGet (suppressData (beforeStatusOf page) data) "reservation_number" = some rv) :
    update_notion_entry f st pid data =
      ([.updateCall pid data, .notify true, .log "notion_handler" "notion_updated"],
       replaceFirstPage st pid (data_to_properties (suppressData (beforeStatusOf page) data)),
       true) := by
  unfold update_notion_entry
  rw [hpage]
  dsimp only
  rw [if_neg (by rw [List.isEmpty_iff]; exact d2p_ne_nil _)]
  rw [if_neg (by simp [hu])]
  rw [hrn]
  rw [if_neg (by simp [hn])]

/-- C4: when the stored status of the page being updated is hard-terminal
(invoice_sent or paid), update_notion_entry suppresses the status key
before the store write: the written property payload has no status column,
the page's stored status is unchanged after the update, every column of the
written payload takes its new value on the page, and the update completes
normally.  (Per the decision policy, an update call is made exactly when
the incoming edition is strictly newer.) -/
theorem c4_hard_terminal_status_lock (f : Faults) (st : Store) (pid : Nat)
    (data : Dict) (page : Page) (s : String) (rv : Value)
    (hu : f.updateErr = false) (hn : f.notifyErr = false)
    (hpage : st.find? (fun p => p.pid = pid) = some page)
    (hs : getProp page.props "status" = some (.status s))
    (hhard : s = "invoice_sent" ∨ s = "paid")
    (hrn : dictGet (data.filter (fun kv => kv.1 ≠ "status")) "reservation_number"
      = some rv) :
    (update_notion_entry f st pid data).2.2 = true ∧
    getProp (data_to_properties (data.filter (fun kv => kv.1 ≠ "status"))) "status"
      = none ∧
    ∃ page',
      (update_notion_entry f st pid data).2.1.find? (fun p => p.pid = pid) = some page' ∧
      getProp page'.props "status" = some (.status s) ∧
      ∀ col v,
        getProp (data_to_properties (data.filter (fun kv => kv.1 ≠ "status"))) col
          = some v →
        getProp page'.props col = some v := by
  have hbefore : beforeStatusOf page = s := by
    unfold beforeStatusOf
    rw [hs]
  have hsupp : suppressData (beforeStatusOf page) data
      = data.filter (fun kv => kv.1 ≠ "status") := by
    unfold suppressData
    rw [hbefore, if_pos hhard]
  have hstat : getProp (data_to_properties (data.filter (fun kv => kv.1 ≠ "status")))
      "status" = none := by
    apply d2p_status_none
    intro kv hkv
    have := (List.mem_filter.mp hkv).2
    simpa using this
  have hres := update_notion_entry_success f st pid data page rv hu hn hpage
    (by rw [hsupp]; exact hrn)
  refine ⟨by rw [hres], hstat, ?_⟩
  refine ⟨{ page with props :=
      data_to_properties (data.filter (fun kv => kv.1 ≠ "status")) ++ page.props },
    ?_, ?_, ?_⟩
  · rw [hres]
    show (replaceFirstPage st pid _).find? (fun p => p.pid = pid) = _
    rw [hsupp] at hres ⊢
    exact find?_replaceFirst st pid _ page hpage
  · show getProp (_ ++ page.props) "status" = some (.status s)
    rw [getProp_append_right _ _ _ hstat]
    exact hs
  · intro col v hcol
    exact getProp_append_left _ _ _ _ hcol

theorem c4_hard_terminal_status_lock_witness :
    ∃ page',
      (update_notion_entry noFaults
          [⟨0, [("booking_num", .title "7"), ("edition", .select "1"),
                ("status", .status "paid")]⟩]
          0
          [("reservation_number", .num 7), ("edition", .num 2),
           ("status", .str "updated"), ("order_limit", .num 700)]).2.1.find?
        (fun p => p.pid = 0) = some page' ∧
      getProp page'.props "status" = some (.status "paid") ∧
      getProp page'.props "order_limit" = some (.number 700) ∧
      editionOfProps page'.props = 2 := by
  have h := c4_hard_terminal_status_lock noFaults
    [⟨0, [("booking_num", .title "7"), ("edition", .select "1"),
          ("status", .status "paid")]⟩]
    0
    [("reservation_number", .num 7), ("edition", .num 2),
     ("status", .str "updated"), ("order_limit", .num 700)]
    ⟨0, [("booking_num", .title "7"), ("edition", .select "1"),
         ("status", .status "paid")]⟩
    "paid" (.num 7) rfl rfl (by decide) (by decide) (Or.inr rfl) (by decide)
  obtain ⟨-, -, page', hfind, hstat, hnew⟩ := h
  refine ⟨page', hfind, hstat, ?_, ?_⟩
  · exact hnew "order_limit" (.number 700) (by decide)
  · apply editionOfProps_of_getProp
    exact hnew "edition" (.select (pyStrNat 2)) (by decide)

end AutoRes

namespace AutoRes

theorem create_events_sub (f : Faults) (st : Store) (data : Dict) :
    ∀ e ∈ (create_notion_entry f st data).1,
      e = .createCall data ∨ e = .notify false ∨ (∃ s, e = .appendDesc s) ∨
      ∃ m ev, e = .log m ev := by
  intro e he
  unfold create_notion_entry at he
  split at he
  · simp only [List.mem_cons, List.not_mem_nil, or_false] at he
    rcases he with rfl | rfl
    · exact Or.inl rfl
    · exact Or.inr (Or.inr (Or.inr ⟨_, _, rfl⟩))
  · dsimp only at he
    split at he
    · simp only [List.mem_cons, List.not_mem_nil, or_false] at he
      rcases he with rfl | rfl
      · exact Or.inl rfl
      · exact Or.inr (Or.inr (Or.inr ⟨_, _, rfl⟩))
    · split at he
      · simp only [List.mem_cons, List.not_mem_nil, or_false] at he
        rcases he with rfl | rfl | rfl
        · exact Or.inl rfl
        · exact Or.inr (Or.inl rfl)
        · exact Or.inr (Or.inr (Or.inr ⟨_, _, rfl⟩))
      · simp only [List.append_assoc, List.mem_append, List.mem_cons,
          List.not_mem_nil, or_false] at he
        rcases he with (rfl | rfl) | he | rfl
        · exact Or.inl rfl
        · exact Or.inr (Or.inl rfl)
        · split at he
          · split at he
            · simp only [List.mem_cons, List.not_mem_nil, or_false] at he
              subst he
              exact Or.inr (Or.inr (Or.inl ⟨_, rfl⟩))
            · simp at he
          · simp at he
        · exact Or.inr (Or.inr (Or.inr ⟨_, _, rfl⟩))

theorem update_events_sub (f : Faults) (st : Store) (pid : Nat) (data : Dict) :
    ∀ e ∈ (update_notion_entry f st pid data).1,
      e = .updateCall pid data ∨ e = .notify true ∨ ∃ m ev, e = .log m ev := by
  intro e he
  unfold update_notion_entry at he
  split at he
  · simp only [List.mem_cons, List.not_mem_nil, or_false] at he
    rcases he with rfl | rfl
    · exact Or.inl rfl
    · exact Or.inr (Or.inr ⟨_, _, rfl⟩)
  · dsimp only at he
    split at he
    · simp only [List.mem_cons, List.not_mem_nil, or_false] at he
      subst he
      exact Or.inl rfl
    · split at he
      · simp only [List.mem_cons, List.not_mem_nil, or_false] at he
        rcases he with rfl | rfl
        · exact Or.inl rfl
        · exact Or.inr (Or.inr ⟨_, _, rfl⟩)
      · split at he
        · simp only [List.mem_cons, List.not_mem_nil, or_false] at he
          rcases he with rfl | rfl
          · exact Or.inl rfl
          · exact Or.inr (Or.inr ⟨_, _, rfl⟩)
        · split at he
          · simp only [List.mem_cons, List.not_mem_nil, or_false] at he
            rcases he with rfl | rfl | rfl
            · exact Or.inl rfl
            · exact Or.inr (Or.inl rfl)
            · exact Or.inr (Or.inr ⟨_, _, rfl⟩)
          · simp only [List.mem_cons, List.not_mem_nil, or_false] at he
            rcases he with rfl | rfl | rfl
            · exact Or.inl rfl
            · exact Or.inr (Or.inl rfl)
            · exact Or.inr (Or.inr ⟨_, _, rfl⟩)

end AutoRes

namespace AutoRes

theorem processPdfTry_payload_events (st : Store) (j : Job)
    (found : Option (Nat × Nat)) (g : Dict) (sv : Value)
    (hdoc : j.doc = some g)
    (hsv : dictGet (authoritative g j.res j.ed) "status" = some sv) :
    ∀ e ∈ (processPdfTry st j found).1,
      (∀ d, e = .createCall d →
        d = shapePayload (authoritative g j.res j.ed) sv j.res j.ed) ∧
      (∀ p d, e = .updateCall p d →
        d = shapePayload (authoritative g j.res j.ed) sv j.res j.ed) := by
  intro e he
  cases hrnv : dictGet g "reservation_number" with
  | none =>
      simp only [processPdfTry, hdoc, hrnv, List.mem_cons, List.not_mem_nil,
        or_false] at he
      rcases he with rfl | rfl
      · exact ⟨fun d h => Event.noConfusion h, fun p d h => Event.noConfusion h⟩
      · exact ⟨fun d h => Event.noConfusion h, fun p d h => Event.noConfusion h⟩
  | some rnv =>
      cases hrn : pyIntOfValue rnv with
      | none =>
          simp only [processPdfTry, hdoc, hrnv, hrn, List.mem_cons, List.not_mem_nil,
            or_false] at he
          rcases he with rfl | rfl
          · exact ⟨fun d h => Event.noConfusion h, fun p d h => Event.noConfusion h⟩
          · exact ⟨fun d h => Event.noConfusion h, fun p d h => Event.noConfusion h⟩
      | some rn =>
          cases found with
          | none =>
              simp only [processPdfTry, hdoc, hrnv, hrn, hsv, List.append_assoc,
                List.mem_append, List.mem_cons, List.not_mem_nil, or_false] at he
              rcases he with rfl | he | he | rfl
              · exact ⟨fun d h => Event.noConfusion h, fun p d h => Event.noConfusion h⟩
              · split at he
                · simp only [List.mem_cons, List.not_mem_nil, or_false] at he
                  subst he
                  exact ⟨fun d h => Event.noConfusion h, fun p d h => Event.noConfusion h⟩
                · simp at he
              · have := create_events_sub j.faults st
                  (shapePayload (authoritative g j.res j.ed) sv j.res j.ed) e he
                rcases this with rfl | rfl | ⟨s, rfl⟩ | ⟨m, ev, rfl⟩
                · exact ⟨fun d h => by cases h; rfl, fun p d h => Event.noConfusion h⟩
                · exact ⟨fun d h => Event.noConfusion h, fun p d h => Event.noConfusion h⟩
                · exact ⟨fun d h => Event.noConfusion h, fun p d h => Event.noConfusion h⟩
                · exact ⟨fun d h => Event.noConfusion h, fun p d h => Event.noConfusion h⟩
              · split <;>
                  exact ⟨fun d h => Event.noConfusion h, fun p d h => Event.noConfusion h⟩
          | some pr =>
              obtain ⟨pid, sed⟩ := pr
              by_cases hlt : sed < j.ed
              · simp only [processPdfTry, hdoc, hrnv, hrn, hsv, if_pos hlt,
                  List.append_assoc, List.mem_append, List.mem_cons, List.not_mem_nil,
                  or_false] at he
                rcases he with rfl | he | he | rfl
                · exact ⟨fun d h => Event.noConfusion h, fun p d h => Event.noConfusion h⟩
                · split at he
                  · simp only [List.mem_cons, List.not_mem_nil, or_false] at he
                    subst he
                    exact ⟨fun d h => Event.noConfusion h,
                      fun p d h => Event.noConfusion h⟩
                  · simp at he
                · have := update_events_sub j.faults st pid
                    (shapePayload (authoritative g j.res j.ed) sv j.res j.ed) e he
                  rcases this with rfl | rfl | ⟨m, ev, rfl⟩
                  · exact ⟨fun d h => Event.noConfusion h, fun p d h => by cases h; rfl⟩
                  · exact ⟨fun d h => Event.noConfusion h, fun p d h => Event.noConfusion h⟩
                  · exact ⟨fun d h => Event.noConfusion h, fun p d h => Event.noConfusion h⟩
                · split <;>
                    exact ⟨fun d h => Event.noConfusion h, fun p d h => Event.noConfusion h⟩
              · simp only [processPdfTry, hdoc, hrnv, hrn, hsv, if_neg hlt,
                  List.append_assoc, List.mem_append, List.mem_cons, List.not_mem_nil,
                  or_false] at he
                rcases he with rfl | he | rfl
                · exact ⟨fun d h => Event.noConfusion h, fun p d h => Event.noConfusion h⟩
                · split at he
                  · simp only [List.mem_cons, List.not_mem_nil, or_false] at he
                    subst he
                    exact ⟨fun d h => Event.noConfusion h,
                      fun p d h => Event.noConfusion h⟩
                  · simp at he
                · exact ⟨fun d h => Event.noConfusion h, fun p d h => Event.noConfusion h⟩

end AutoRes

namespace AutoRes

theorem process_pdf_events_cases (st : Store) (j : Job) :
    ∀ e ∈ (process_pdf st j).1,
      e = .log "main" "start_pdf" ∨ e = .log "main" "skip_terminal" ∨
      e ∈ (processPdfTry st j (searchStore st j.res)).1 := by
  intro e he
  unfold process_pdf at he
  split at he
  · simp only [List.mem_cons, List.not_mem_nil, or_false] at he
    exact Or.inl he
  · dsimp only at he
    cases hfound : searchStore st j.res with
    | none =>
        rw [hfound] at he
        simp only [List.mem_cons, List.not_mem_nil, or_false, List.mem_append] at he
        rcases he with rfl | he
        · exact Or.inl rfl
        · exact Or.inr (Or.inr (by simpa using he))
    | some pr =>
        obtain ⟨pid, sed⟩ := pr
        rw [hfound] at he
        dsimp only at he
        split at he
        · simp only [List.append_assoc, List.mem_append, List.mem_cons,
            List.not_mem_nil, or_false] at he
          rcases he with rfl | rfl
          · exact Or.inl rfl
          · exact Or.inr (Or.inl rfl)
        · simp only [List.mem_append, List.mem_cons, List.not_mem_nil, or_false] at he
          rcases he with rfl | he
          · exact Or.inl rfl
          · exact Or.inr (Or.inr (by simpa using he))

/-- C5: for a job whose extracted status is "cancelled", the payload dict
handed to the store layer (create_notion_entry / update_notion_entry) is
exactly the three-field minimal dict {reservation_number, edition, status},
whatever else the extractor returned; and the corresponding property set
is exactly the three mapped columns plus the fixed confirmed_booking
default. -/
theorem c5_cancellation_minimization (st : Store) (j : Job) (g : Dict)
    (hdoc : j.doc = some g)
    (hst : dictGet g "status" = some (.str "cancelled")) :
    (∀ d, Event.createCall d ∈ (process_pdf st j).1 → d = cancelledMin j.res j.ed) ∧
    (∀ pid d, Event.updateCall pid d ∈ (process_pdf st j).1 →
      d = cancelledMin j.res j.ed) ∧
    data_to_properties (cancelledMin j.res j.ed) =
      [("booking_num", .title (pyStrNat j.res)), ("edition", .select (pyStrNat j.ed)),
       ("status", .status "cancelled"), ("confirmed_booking", .checkbox false)] := by
  have hsv2 : dictGet (authoritative g j.res j.ed) "status" = some (.str "cancelled") := by
    rw [dictGet_authoritative_other _ _ _ _ (by decide) (by decide)]
    exact hst
  have hshape : shapePayload (authoritative g j.res j.ed) (.str "cancelled") j.res j.ed
      = cancelledMin j.res j.ed := by
    unfold shapePayload
    rw [if_pos rfl]
  refine ⟨?_, ?_, ?_⟩
  · intro d hmem
    rcases process_pdf_events_cases st j _ hmem with h | h | h
    · exact Event.noConfusion h
    · exact Event.noConfusion h
    · have := (processPdfTry_payload_events st j (searchStore st j.res) g
        (.str "cancelled") hdoc hsv2 _ h).1 d rfl
      rwa [hshape] at this
  · intro pid d hmem
    rcases process_pdf_events_cases st j _ hmem with h | h | h
    · exact Event.noConfusion h
    · exact Event.noConfusion h
    · have := (processPdfTry_payload_events st j (searchStore st j.res) g
        (.str "cancelled") hdoc hsv2 _ h).2 pid d rfl
      rwa [hshape] at this
  · show data_to_properties (cancelledMin j.res j.ed) = _
    show [("booking_num", PropValue.title (pyStrInt (j.res : Int))),
          ("edition", PropValue.select (pyStrInt (j.ed : Int))),
          ("status", PropValue.status "cancelled"),
          ("confirmed_booking", PropValue.checkbox false)] = _
    rw [pyStrInt_natCast, pyStrInt_natCast]

end AutoRes

namespace AutoRes

theorem c5_cancellation_minimization_witness :
    Event.createCall (cancelledMin 9 0) ∈
      (process_pdf []
        ⟨some [("reservation_number", .num 9), ("status", .str "cancelled"),
               ("order_limit", .num 1)], 9, 0, noFaults⟩).1 ∧
    (∀ d, Event.createCall d ∈
      (process_pdf []
        ⟨some [("reservation_number", .num 9), ("status", .str "cancelled"),
               ("order_limit", .num 1)], 9, 0, noFaults⟩).1 →
      d = cancelledMin 9 0) := by
  have h := c5_cancellation_minimization []
    ⟨some [("reservation_number", .num 9), ("status", .str "cancelled"),
           ("order_limit", .num 1)], 9, 0, noFaults⟩
    [("reservation_number", .num 9), ("status", .str "cancelled"), ("order_limit", .num 1)]
    rfl (by decide)
  exact ⟨by decide, h.1⟩

end AutoRes

namespace AutoRes

/-- C6 counterexample: an unknown field is NOT carried into the persisted
payload unchanged; it is dropped entirely.  The payload built from a dict
holding only the unknown key "free_text_note" contains no trace of it —
only the fixed confirmed_booking default — refuting the pass-through claim
at this input. -/
theorem c6_unknown_fields_counterexample :
    data_to_properties [("free_text_note", Value.str "bring candles")] =
      [("confirmed_booking", PropValue.checkbox false)] ∧
    getProp (data_to_properties [("free_text_note", Value.str "bring candles")])
      "free_text_note" = none := by
  constructor <;> rfl

/-- C6 amended: unknown fields are not validated, but neither are they passed
through: deleting every unmapped key from the input leaves the persisted
payload unchanged, because _data_to_properties ignores keys outside its
field map (only mapped fields plus the fixed confirmed_booking default are
persisted). -/
theorem c6_unknown_fields_dropped (data : Dict) :
    data_to_properties (data.filter (fun kv => (FIELD_MAP kv.1).isSome))
      = data_to_properties data := by
  unfold data_to_properties
  congr 1
  induction data with
  | nil => rfl
  | cons a t ih =>
      cases hf : FIELD_MAP a.1 with
      | none =>
          rw [List.filter_cons_of_neg (by simp [hf])]
          rw [List.filterMap_cons]
          by_cases hv : a.2 = Value.vnone
          · rw [if_pos hv]
            exact ih
          · rw [if_neg hv, hf]
            exact ih
      | some p =>
          rw [List.filter_cons_of_pos (by simp [hf])]
          rw [List.filterMap_cons, List.filterMap_cons, ih]

end AutoRes

namespace AutoRes

/-- C7 counterexample: a store-lookup failure on the first job is NOT
contained at the per-job boundary — the run logs pipeline_error, re-raises
and aborts, so the second job (which would have created a record) is never
processed.  The claim that store lookup errors are isolated per job is
refuted at this input. -/
theorem c7_lookup_error_aborts_batch :
    runJobs []
      [⟨some [("reservation_number", .num 1), ("status", .str "future_order")], 1, 0,
        ⟨true, false, false, false⟩⟩,
       ⟨some [("reservation_number", .num 2), ("status", .str "future_order")], 2, 0,
        noFaults⟩]
      = ([.log "main" "start_pdf", .log "main" "pipeline_error"], [], false) := by
  rfl

/-- C7 amended: extraction failures and store-write or notification failures
are caught inside the per-job try-block, so process_pdf returns normally
and the batch continues with the remaining jobs; an extraction failure is
converted to a logged pdf_error outcome for that job (unless the job was
already terminally skipped before extraction).  Only the store lookups,
which run before the try-block, can escape and abort the batch. -/
theorem c7_per_job_isolation :
    (∀ (st : Store) (j : Job), j.faults.lookupErr = false →
      (process_pdf st j).2.2 = true) ∧
    (∀ (st : Store) (j : Job) (rest : List Job), j.faults.lookupErr = false →
      runJobs st (j :: rest) =
        ((process_pdf st j).1 ++ (runJobs (process_pdf st j).2.1 rest).1,
         (runJobs (process_pdf st j).2.1 rest).2.1,
         (runJobs (process_pdf st j).2.1 rest).2.2)) ∧
    (∀ (st : Store) (j : Job), j.doc = none → j.faults.lookupErr = false →
      Event.log "main" "pdf_error" ∈ (process_pdf st j).1 ∨
      Event.log "main" "skip_terminal" ∈ (process_pdf st j).1) := by
  refine ⟨fun st j h => process_pdf_no_raise st j h, ?_, ?_⟩
  · intro st j rest h
    conv_lhs => rw [runJobs]
    rw [if_pos (process_pdf_no_raise st j h)]
  · intro st j hdoc h
    unfold process_pdf
    rw [if_neg (by simp [h])]
    dsimp only
    cases hfound : searchStore st j.res with
    | none =>
        left
        simp [processPdfTry, hdoc]
    | some pr =>
        obtain ⟨pid, sed⟩ := pr
        dsimp only
        split
        · right; simp
        · left
          simp [processPdfTry, hdoc]

theorem c7_per_job_isolation_witness :
    (process_pdf [] ⟨none, 3, 0, noFaults⟩).2.2 = true ∧
    runJobs [] [⟨none, 3, 0, noFaults⟩] =
      ((process_pdf [] ⟨none, 3, 0, noFaults⟩).1 ++ (runJobs (process_pdf [] ⟨none, 3, 0, noFaults⟩).2.1 []).1,
       (runJobs (process_pdf [] ⟨none, 3, 0, noFaults⟩).2.1 []).2.1,
       (runJobs (process_pdf [] ⟨none, 3, 0, noFaults⟩).2.1 []).2.2) ∧
    (Event.log "main" "pdf_error" ∈ (process_pdf [] ⟨none, 3, 0, noFaults⟩).1 ∨
      Event.log "main" "skip_terminal" ∈ (process_pdf [] ⟨none, 3, 0, noFaults⟩).1) := by
  exact ⟨c7_per_job_isolation.1 [] ⟨none, 3, 0, noFaults⟩ rfl,
    c7_per_job_isolation.2.1 [] ⟨none, 3, 0, noFaults⟩ [] rfl,
    c7_per_job_isolation.2.2 [] ⟨none, 3, 0, noFaults⟩ rfl rfl⟩

end AutoRes

namespace AutoRes

/-- C8 counterexample: a Telegram notify failure during create is caught,
logged as notion_error and RE-RAISED by create_notion_entry: the job's
remaining steps do not complete — the additional description is never
appended and no success is logged — although the page itself was already
created.  Under no faults the same input does append the description.
This refutes the claim that the engine swallows notification failures and
completes the remaining steps. -/
theorem c8_notify_failure_counterexample :
    create_notion_entry ⟨false, false, false, true⟩ []
        [("reservation_number", .num 7), ("status", .str "future_order"),
         ("additional_description", .str "note")] =
      ([.createCall [("reservation_number", .num 7), ("status", .str "future_order"),
          ("additional_description", .str "note")],
        .notify false, .log "notion_handler" "notion_error"],
       [⟨0, data_to_properties
          [("reservation_number", .num 7), ("status", .str "future_order"),
           ("additional_description", .str "note")]⟩], false) ∧
    (create_notion_entry noFaults []
        [("reservation_number", .num 7), ("status", .str "future_order"),
         ("additional_description", .str "note")]).1 =
      [.createCall [("reservation_number", .num 7), ("status", .str "future_order"),
          ("additional_description", .str "note")],
       .notify false, .appendDesc "note", .log "notion_handler" "notion_created"] := by
  constructor <;> rfl

/-- C8 amended: a notification failure during create or update is logged and
re-raised by the store layer, aborting the remaining steps of that job
(no description append, no success log) — but the page mutation it follows
is not rolled back, and the exception is then caught at the per-job
boundary of process_pdf, so the batch is unaffected. -/
theorem c8_notify_failure_reraised :
    (∀ (f : Faults) (st : Store) (data : Dict) (rv : Value),
      f.notifyErr = true → f.createErr = false →
      dictGet data "reservation_number" = some rv →
      create_notion_entry f st data =
        ([.createCall data, .notify false, .log "notion_handler" "notion_error"],
         st ++ [⟨freshId st, data_to_properties data⟩], false)) ∧
    (∀ (f : Faults) (st : Store) (pid : Nat) (data : Dict) (page : Page) (rv : Value),
      f.notifyErr = true → f.updateErr = false →
      st.find? (fun p => p.pid = pid) = some page →
      dictGet (suppressData (beforeStatusOf page) data) "reservation_number" = some rv →
      update_notion_entry f st pid data =
        ([.updateCall pid data, .notify true, .log "notion_handler" "notion_error"],
         replaceFirstPage st pid
           (data_to_properties (suppressData (beforeStatusOf page) data)), false)) ∧
    (∀ (st : Store) (j : Job), j.faults.lookupErr = false →
      (process_pdf st j).2.2 = true) := by
  refine ⟨?_, ?_, fun st j h => process_pdf_no_raise st j h⟩
  · intro f st data rv hn hc hrv
    unfold create_notion_entry
    rw [if_neg (by simp [hc])]
    dsimp only
    rw [hrv]
    rw [if_pos hn]
  · intro f st pid data page rv hn hu hpage hrv
    unfold update_notion_entry
    rw [hpage]
    dsimp only
    rw [if_neg (by rw [List.isEmpty_iff]; exact d2p_ne_nil _)]
    rw [if_neg (by simp [hu])]
    rw [hrv]
    rw [if_pos hn]

theorem c8_notify_failure_reraised_witness :
    create_notion_entry ⟨false, false, false, true⟩ []
        [("reservation_number", .num 5), ("status", .str "future_order")] =
      ([.createCall [("reservation_number", .num 5), ("status", .str "future_order")],
        .notify false, .log "notion_handler" "notion_error"],
       [⟨0, data_to_properties
          [("reservation_number", .num 5), ("status", .str "future_order")]⟩],
       false) ∧
    (process_pdf [] ⟨none, 5, 0, noFaults⟩).2.2 = true := by
  exact ⟨c8_notify_failure_reraised.1 ⟨false, false, false, true⟩ []
      [("reservation_number", .num 5), ("status", .str "future_order")] (.num 5)
      rfl rfl (by decide),
    c8_notify_failure_reraised.2.2 [] ⟨none, 5, 0, noFaults⟩ rfl⟩

end AutoRes

namespace AutoRes

/-- C9 counterexample: after a first call that creates a record whose status
is "cancelled" (a terminal status), the identical second call is skipped by
the early TERMINAL check, not by the stale-edition branch the claim
promises: skip_old_edition is never logged, skip_terminal is.  The store is
still not mutated. -/
theorem c9_identical_repeat_counterexample :
    Event.log "main" "skip_old_edition" ∉
      (process_pdf
        (process_pdf []
          ⟨some [("reservation_number", .num 9), ("status", .str "cancelled")], 9, 0,
            noFaults⟩).2.1
        ⟨some [("reservation_number", .num 9), ("status", .str "cancelled")], 9, 0,
          noFaults⟩).1 ∧
    Event.log "main" "skip_terminal" ∈
      (process_pdf
        (process_pdf []
          ⟨some [("reservation_number", .num 9), ("status", .str "cancelled")], 9, 0,
            noFaults⟩).2.1
        ⟨some [("reservation_number", .num 9), ("status", .str "cancelled")], 9, 0,
          noFaults⟩).1 ∧
    (process_pdf
        (process_pdf []
          ⟨some [("reservation_number", .num 9), ("status", .str "cancelled")], 9, 0,
            noFaults⟩).2.1
        ⟨some [("reservation_number", .num 9), ("status", .str "cancelled")], 9, 0,
          noFaults⟩).2.1 =
      (process_pdf []
        ⟨some [("reservation_number", .num 9), ("status", .str "cancelled")], 9, 0,
          noFaults⟩).2.1 := by
  refine ⟨by decide, by decide, by decide⟩

end AutoRes

namespace AutoRes

/-- C9 amended: repeating a successful creating/updating call with the same
(reservation number, edition, document) yields a SKIP with zero store
mutation on the second call — a stale-edition skip when the stored status
after the first call is not terminal, and a terminal skip when it is; in
both cases neither create nor update is invoked and no exception escapes. -/
theorem c9_second_call_skips (st0 : Store) (j : Job) (g : Dict)
    (hwf : WFStore st0) (hf : j.faults = noFaults) (hdoc : j.doc = some g)
    (hgood : goodDoc g = true)
    (hfirst : searchStore st0 j.res = none ∨
      ∃ pid sed, searchStore st0 j.res = some (pid, sed) ∧ sed < j.ed) :
    (process_pdf (process_pdf st0 j).2.1 j).2.1 = (process_pdf st0 j).2.1 ∧
    (process_pdf (process_pdf st0 j).2.1 j).2.2 = true ∧
    (∀ d, Event.createCall d ∉ (process_pdf (process_pdf st0 j).2.1 j).1) ∧
    (∀ p d, Event.updateCall p d ∉ (process_pdf (process_pdf st0 j).2.1 j).1) ∧
    ((statusIsTerminal (getStatusLower (process_pdf st0 j).2.1 j.res) = true →
        Event.log "main" "skip_terminal" ∈ (process_pdf (process_pdf st0 j).2.1 j).1) ∧
      (statusIsTerminal (getStatusLower (process_pdf st0 j).2.1 j.res) = false →
        Event.log "main" "skip_old_edition" ∈ (process_pdf (process_pdf st0 j).2.1 j).1)) := by
  have hle : j.faults.lookupErr = false := by rw [hf]; rfl
  have hstored : storedEditionOpt (process_pdf st0 j).2.1 j.res = some j.ed := by
    rcases hfirst with hnone | ⟨pid, sed, hsome, hlt⟩
    · obtain ⟨data, hrn, hed, hst⟩ := process_create_write st0 j g hf hdoc hgood hnone
      rw [hst]
      exact storedEd_after_create st0 j.res j.ed (freshId st0) data hnone hrn hed
    · obtain ⟨data2, page, hpage, hrn, hed, hst⟩ :=
        process_update_write st0 j g pid sed hwf hf hdoc hgood hsome hlt
      obtain ⟨q, hfindq, hqpid, hqed⟩ := searchStore_inv st0 j.res pid sed hsome
      rw [hst]
      exact storedEd_after_update st0 j.res j.ed pid q data2 (nodup_of_WF st0 hwf)
        hfindq hqpid hrn hed
  obtain ⟨pid1, hsearch1⟩ := storedEd_some_inv (process_pdf st0 j).2.1 j.res j.ed hstored
  by_cases hterm : statusIsTerminal (getStatusLower (process_pdf st0 j).2.1 j.res) = true
  · have hskip := process_pdf_terminal_skip (process_pdf st0 j).2.1 j pid1 j.ed hle
      hsearch1 le_rfl hterm
    rw [hskip]
    refine ⟨rfl, rfl, by simp, by simp, fun _ => by simp, fun hcon => ?_⟩
    rw [hterm] at hcon
    exact Bool.noConfusion hcon
  · obtain ⟨⟨rnv, rn, hrnv, hrn⟩, sv, hsv⟩ := goodDoc_parts g hgood
    have hsv2 : dictGet (authoritative g j.res j.ed) "status" = some sv := by
      rw [dictGet_authoritative_other _ _ _ _ (by decide) (by decide)]
      exact hsv
    have htry : processPdfTry (process_pdf st0 j).2.1 j (some (pid1, j.ed)) =
        ([.extractCall] ++
          (if rn ≠ (j.res : Int) then [Event.log "main" "res_num_mismatch"] else []) ++
          [.log "main" "skip_old_edition"], (process_pdf st0 j).2.1, true) := by
      simp only [processPdfTry, hdoc, hrnv, hrn, hsv2]
      rw [if_neg (Nat.lt_irrefl j.ed)]
    have hproc2 : process_pdf (process_pdf st0 j).2.1 j =
        ([.log "main" "start_pdf"] ++
          (processPdfTry (process_pdf st0 j).2.1 j (some (pid1, j.ed))).1,
         (processPdfTry (process_pdf st0 j).2.1 j (some (pid1, j.ed))).2.1,
         (processPdfTry (process_pdf st0 j).2.1 j (some (pid1, j.ed))).2.2) := by
      conv_lhs => rw [process_pdf]
      rw [if_neg (by simp [hle])]
      dsimp only
      rw [hsearch1]
      dsimp only
      rw [if_neg (by intro hcon; exact hterm hcon.2)]
    rw [hproc2, htry]
    refine ⟨rfl, rfl, ?_, ?_, fun hcon => absurd hcon hterm, fun _ => ?_⟩
    · intro d
      by_cases hmis : rn ≠ (j.res : Int) <;> simp [hmis]
    · intro p d
      by_cases hmis : rn ≠ (j.res : Int) <;> simp [hmis]
    · by_cases hmis : rn ≠ (j.res : Int) <;> simp [hmis]

end AutoRes

namespace AutoRes

theorem c9_second_call_skips_witness :
    (process_pdf
        (process_pdf []
          ⟨some [("reservation_number", .num 7), ("status", .str "future_order")], 7, 0,
            noFaults⟩).2.1
        ⟨some [("reservation_number", .num 7), ("status", .str "future_order")], 7, 0,
          noFaults⟩).2.1 =
      (process_pdf []
        ⟨some [("reservation_number", .num 7), ("status", .str "future_order")], 7, 0,
          noFaults⟩).2.1 ∧
    Event.log "main" "skip_old_edition" ∈
      (process_pdf
        (process_pdf []
          ⟨some [("reservation_number", .num 7), ("status", .str "future_order")], 7, 0,
            noFaults⟩).2.1
        ⟨some [("reservation_number", .num 7), ("status", .str "future_order")], 7, 0,
          noFaults⟩).1 := by
  have h := c9_second_call_skips []
    ⟨some [("reservation_number", .num 7), ("status", .str "future_order")], 7, 0, noFaults⟩
    [("reservation_number", .num 7), ("status", .str "future_order")]
    rfl rfl rfl (by decide) (Or.inl rfl)
  exact ⟨h.1, h.2.2.2.2.2 (by decide)⟩

/-- C10: every property set built by _data_to_properties carries the fixed
confirmed_booking = False checkbox and is never empty; consequently every
create persists confirmed_booking = False, and every performed update
resets the page's confirmed_booking to False (the merged page reads back
False whatever was stored before). -/
theorem c10_confirmed_booking_default :
    (∀ data : Dict, getProp (data_to_properties data) "confirmed_booking" =
      some (.checkbox false)) ∧
    (∀ data : Dict, data_to_properties data ≠ []) ∧
    (∀ (f : Faults) (st : Store) (pid : Nat) (data : Dict) (page : Page) (rv : Value),
      f.updateErr = false → f.notifyErr = false →
      st.find? (fun p => p.pid = pid) = some page →
      dictGet (suppressData (beforeStatusOf page) data) "reservation_number" = some rv →
      ∃ page',
        (update_notion_entry f st pid data).2.1.find? (fun p => p.pid = pid) = some page' ∧
        getProp page'.props "confirmed_booking" = some (.checkbox false)) := by
  refine ⟨getProp_d2p_confirmed, d2p_ne_nil, ?_⟩
  intro f st pid data page rv hu hn hpage hrv
  have hres := update_notion_entry_success f st pid data page rv hu hn hpage hrv
  refine ⟨{ page with props :=
      data_to_properties (suppressData (beforeStatusOf page) data) ++ page.props },
    ?_, ?_⟩
  · rw [hres]
    exact find?_replaceFirst st pid _ page hpage
  · exact getProp_append_left _ _ _ _ (getProp_d2p_confirmed _)

theorem c10_confirmed_booking_default_witness :
    getProp (data_to_properties [("reservation_number", .num 3)]) "confirmed_booking" =
      some (.checkbox false) ∧
    ∃ page',
      (update_notion_entry noFaults
          [⟨0, [("booking_num", .title "3"), ("confirmed_booking", .checkbox true)]⟩]
          0 [("reservation_number", .num 3)]).2.1.find? (fun p => p.pid = 0) =
        some page' ∧
      getProp page'.props "confirmed_booking" = some (.checkbox false) := by
  exact ⟨c10_confirmed_booking_default.1 [("reservation_number", .num 3)],
    c10_confirmed_booking_default.2.2 noFaults
      [⟨0, [("booking_num", .title "3"), ("confirmed_booking", .checkbox true)]⟩]
      0 [("reservation_number", .num 3)]
      ⟨0, [("booking_num", .title "3"), ("confirmed_booking", .checkbox true)]⟩
      (.num 3) rfl rfl (by decide) (by decide)⟩

end AutoRes
